import Mathlib

/-!
Verification of the VodHunter audio-fingerprint search engine.

This file gives a shallow embedding, in Lean 4, of the core components of the
repository and proves the specification claims about them:

* `search/alignment_service.py` — the voting-based temporal aligner;
* `storage/vector_store.py`     — fingerprint rows, live ingest state, and the
  on-disk vector/id pair;
* `search/vector_matcher.py`    — the cosine matcher's shape validation;
* `sources/live_archive_vod_source.py` — the lag-aware archive follower;
* `backend/services/monitor_manager.py` — the single-slot monitor supervisor.

Python floats for timestamps and durations are modelled as rationals (`ℚ`);
machine ints as `Int`.  External effects (sqlite, the filesystem, ffmpeg,
yt-dlp, the Twitch API, wall-clock time) are modelled by explicit state records
and environment inputs that are threaded through each function.
-/

deriving instance DecidableEq for Except

namespace VodHunter

/-! ## Metadata store: fingerprint rows (`storage/vector_store.py`) -/

/-- A row of the `fingerprints` table: `id INTEGER PRIMARY KEY AUTOINCREMENT,
video_id INTEGER, timestamp_seconds REAL`. -/
structure FpRow where
  id : Int
  video_id : Int
  timestamp_seconds : ℚ
deriving Repr, DecidableEq

/-- The fingerprints table together with the sqlite `AUTOINCREMENT` counter
that supplies `lastrowid` for fresh inserts. -/
structure FpDb where
  rows : List FpRow
  nextId : Int
deriving Repr, DecidableEq

/-- First row matching a `(video_id, timestamp_seconds)` pair, as
`SELECT id FROM fingerprints WHERE video_id = ? AND timestamp_seconds = ?`
with `fetchone()`. -/
def findFp (rows : List FpRow) (vid : Int) (t : ℚ) : Option FpRow :=
  rows.find? (fun r => r.video_id == vid && r.timestamp_seconds == t)

/-- `VectorStore.store_fingerprints`: for each timestamp, `INSERT OR IGNORE`
under the unique index on `(video_id, timestamp_seconds)`; a fresh insert
returns `lastrowid`, otherwise the existing row's id is selected.  Ids are
returned in input order. -/
def store_fingerprints : FpDb → Int → List ℚ → List Int × FpDb
  | db, _, [] => ([], db)
  | db, vid, t :: rest =>
    match findFp db.rows vid t with
    | some r =>
      let p := store_fingerprints db vid rest
      (r.id :: p.1, p.2)
    | none =>
      let row : FpRow := ⟨db.nextId, vid, t⟩
      let p := store_fingerprints ⟨db.rows ++ [row], db.nextId + 1⟩ vid rest
      (db.nextId :: p.1, p.2)

/-- `VectorStore.get_fingerprint_rows`: rows whose id is in the requested id
list, in table order.  (The Python code deduplicates and sorts the id list
before building the SQL `IN (...)` clause, which does not change the
membership test.) -/
def get_fingerprint_rows (table : List FpRow) (ids : List Int) : List FpRow :=
  if ids = [] then [] else table.filter (fun r => ids.contains r.id)

/-! ## Alignment engine (`search/alignment_service.py`) -/

/-- `AlignmentConfig` with the defaults from the source. -/
structure AlignmentConfig where
  min_vote_count : Int := 3
  min_vote_ratio : ℚ := 8 / 100
deriving Repr, DecidableEq

/-- `AlignmentResult` from `search/models.py`. -/
structure AlignmentResult where
  found : Bool
  video_id : Option Int := none
  timestamp_seconds : Option Int := none
  score : Option ℚ := none
  reason : Option String := none
deriving Repr, DecidableEq

/-- Python's built-in `round` on a real value: round half to even
(banker's rounding), returning an integer. -/
def pythonRound (x : ℚ) : Int :=
  let f := ⌊x⌋
  let frac := x - (f : ℚ)
  if frac < 1 / 2 then f
  else if 1 / 2 < frac then f + 1
  else if f % 2 = 0 then f else f + 1

/-- Python's `str.format` spec `.3f` applied to a rational value: three digits
after the decimal point, rounding half to even on the decimal expansion.
(CPython formats the nearest binary double; for the small decimal values used
by the alignment thresholds the two agree.) -/
def fmt3 (x : ℚ) : String :=
  let n := pythonRound (x * 1000)
  let sign := if n < 0 then "-" else ""
  let m := n.natAbs
  let ip := m / 1000
  let fp := m % 1000
  let fpStr := toString fp
  let pad := String.mk (List.replicate (3 - fpStr.length) '0')
  sign ++ toString ip ++ "." ++ pad ++ fpStr

/-- The reject message for a best candidate below the vote-count
threshold. -/
def countMsg (v : Nat) (c : Int) : String :=
  "Best candidate vote count " ++ toString v ++
    " is below min_vote_count " ++ toString c

/-- The reject message for a best candidate below the vote-ratio
threshold. -/
def ratioMsg (r m : ℚ) : String :=
  "Best candidate vote ratio " ++ fmt3 r ++
    " is below min_vote_ratio " ++ fmt3 m

/-- The accept message. -/
def acceptMsg (v : Nat) (r : ℚ) : String :=
  "Accepted with " ++ toString v ++ " votes (" ++ fmt3 r ++ " ratio)"

/-- Lookup in the `id_to_row` dict comprehension: when the same id occurs more
than once in the row list the later row wins, as in a Python dict build. -/
def dictLookup (rows : List FpRow) (k : Int) : Option FpRow :=
  rows.foldl (fun acc r => if r.id == k then some r else acc) none

/-- One `votes[(video_id, offset)] += 1` on a `Counter`, represented as an
association list in first-insertion order. -/
def bumpVote : List ((Int × Int) × Nat) → (Int × Int) → List ((Int × Int) × Nat)
  | [], key => [(key, 1)]
  | (k, c) :: rest, key =>
    if k = key then (k, c + 1) :: rest else (k, c) :: bumpVote rest key

/-- The sequence of `(fp_id, q_time)` visits made by the nested loop
`for i, row_neighbors in enumerate(neighbor_ids): for fp_id in row_neighbors`,
where `q_time = query_timestamps[i]`.  (The caller's shape guard makes the
indexed access equivalent to a zip.) -/
def voteSteps (neighbor_ids : List (List Int)) (query_timestamps : List ℚ) :
    List (Int × ℚ) :=
  (neighbor_ids.zip query_timestamps).flatMap
    (fun p => p.1.map (fun fpId => (fpId, p.2)))

/-- The vote-accumulation loop: each visit that resolves through `id_to_row`
increments the bucket `(video_id, round(db_time − q_time))`. -/
def runVotes (rows : List FpRow) :
    List (Int × ℚ) → List ((Int × Int) × Nat) → List ((Int × Int) × Nat)
  | [], votes => votes
  | (fpId, q) :: rest, votes =>
    match dictLookup rows fpId with
    | none => runVotes rows rest votes
    | some r =>
      runVotes rows rest
        (bumpVote votes (r.video_id, pythonRound (r.timestamp_seconds - q)))

/-- `Counter.most_common(1)[0]`: the entry with the largest count; among equal
counts the first-inserted entry wins.  Returns `none` on an empty counter (the
source guards this case with the "No alignment candidates" branch). -/
def mostCommon1 (votes : List ((Int × Int) × Nat)) :
    Option ((Int × Int) × Nat) :=
  match votes with
  | [] => none
  | v :: rest => some (rest.foldl (fun best y => if y.2 > best.2 then y else best) v)

/-- numpy `arr.size` of a two-dimensional (possibly `(k, 0)`-shaped) integer
array modelled as a list of rows: the total number of elements. -/
def npSize2 (xs : List (List Int)) : Nat := (xs.map List.length).sum

/-- The vote table `align` builds for a given store and input: the resolved
rows are the fingerprint rows of the flattened neighbor ids, and the votes are
accumulated over the nested loop's visit sequence. -/
def alignVotes (table : List FpRow) (neighbor_ids : List (List Int))
    (query_timestamps : List ℚ) : List ((Int × Int) × Nat) :=
  runVotes (get_fingerprint_rows table neighbor_ids.flatten)
    (voteSteps neighbor_ids query_timestamps) []

/-- `AlignmentService.align`: validate shapes, resolve the flattened neighbor
ids to `(video_id, timestamp)` rows, accumulate votes keyed by
`(video_id, round(db_time − q_time))`, pick the best bucket, and admit it
against `min_vote_count` and `min_vote_ratio`. -/
def align (cfg : AlignmentConfig) (table : List FpRow)
    (neighbor_ids : List (List Int)) (query_timestamps : List ℚ) :
    AlignmentResult :=
  if npSize2 neighbor_ids = 0 then
    { found := false, reason := some "No nearest neighbors found" }
  else if query_timestamps.length = 0 then
    { found := false, reason := some "Query had no timestamps" }
  else if neighbor_ids.length ≠ query_timestamps.length then
    { found := false, reason := some "Neighbor/timestamp length mismatch" }
  else
    let rows := get_fingerprint_rows table neighbor_ids.flatten
    if rows = [] then
      { found := false, reason := some "No fingerprint rows resolved" }
    else
      let votes := runVotes rows (voteSteps neighbor_ids query_timestamps) []
      match mostCommon1 votes with
      | none => { found := false, reason := some "No alignment candidates" }
      | some best =>
        let best_video_id := best.1.1
        let best_offset := best.1.2
        let best_votes := best.2
        let vote_ratio : ℚ := (best_votes : ℚ) / (query_timestamps.length : ℚ)
        if (best_votes : Int) < cfg.min_vote_count then
          { found := false,
            reason := some (countMsg best_votes cfg.min_vote_count) }
        else if vote_ratio < cfg.min_vote_ratio then
          { found := false,
            reason := some (ratioMsg vote_ratio cfg.min_vote_ratio) }
        else
          { found := true,
            video_id := some best_video_id,
            timestamp_seconds := some best_offset,
            score := some vote_ratio,
            reason := some (acceptMsg best_votes vote_ratio) }

/-- The fingerprint store of scenarios S3 and S4:
rows 1 → (video 100, ts 10), 2 → (video 100, ts 11), 3 → (video 200, ts 40). -/
def tableS3 : List FpRow :=
  [⟨1, 100, 10⟩, ⟨2, 100, 11⟩, ⟨3, 200, 40⟩]

/-! ## Vector files (`storage/vector_store.py`) and the cosine matcher
(`search/vector_matcher.py`)

The two on-disk dense arrays are modelled as optional file contents: `none`
when the file is absent.  Vector entries are rationals standing in for the
float32 payload; none of the verified claims depend on their numeric values. -/

/-- The pair of files `vectors.npy` / `ids.npy`. -/
structure VectorFiles where
  vector_file : Option (List (List ℚ))
  id_file : Option (List Int)
deriving Repr, DecidableEq

/-- `VectorStore.load_vectors_and_ids`: empty arrays when either file is
absent, otherwise exactly the stored contents.  The source performs no
consistency check between the two arrays. -/
def load_vectors_and_ids (fs : VectorFiles) : List (List ℚ) × List Int :=
  match fs.vector_file, fs.id_file with
  | some vectors, some ids => (vectors, ids)
  | _, _ => ([], [])

/-- numpy `arr.size` of a two-dimensional float array modelled as a list of
rows. -/
def npSize2Q (xs : List (List ℚ)) : Nat := (xs.map List.length).sum

/-- Stable ascending argsort of a list of values: insertion sort on the index
list ordered by value.  (numpy's default `argsort` leaves the relative order
of equal values unspecified; the claims verified here do not depend on it.) -/
def argsortAsc (vals : List ℚ) : List Nat :=
  let insert : Nat → List Nat → List Nat := fun i =>
    fun l => l.foldr
      (fun j acc =>
        if vals.getD i 0 < vals.getD j 0 then i :: j :: acc.drop 1
        else j :: acc.drop 0) [i]
  (List.range vals.length).foldr (fun i acc => insert i acc) []

/-- `VectorMatcher.match`.  The floating-point kernel — `np.dot` of the two
L2-row-normalized matrices — is abstracted by the parameter `sim`, where
`sim i j` is the cosine score of query row `i` against db row `j`; every
branch decision of the source depends only on array shapes, never on those
scores.  Raising `ValueError` is modelled as `Except.error` with the message
text of the source. -/
def VectorMatcher.match (top_k : Int) (sim : Nat → Nat → ℚ)
    (query_embeddings db_vectors : List (List ℚ)) (db_ids : List Int) :
    Except String (List (List ℚ) × List (List Int)) :=
  if npSize2Q query_embeddings = 0 then .ok ([], [])
  else if npSize2Q db_vectors = 0 ∨ db_ids.length = 0 then .ok ([], [])
  else if db_vectors.length ≠ db_ids.length then
    .error "Vector and fingerprint ID arrays are misaligned"
  else
    let n := db_vectors.length
    let k := min top_k (n : Int)
    if k ≤ 0 then .ok ([], [])
    else
      let rows := (List.range query_embeddings.length).map (fun i =>
        let order := ((argsortAsc ((List.range n).map (sim i))).reverse).take k.toNat
        (order.map (fun j => sim i j), order.map (fun j => db_ids.getD j 0)))
      .ok (rows.map Prod.fst, rows.map Prod.snd)

/-! ## Relational store state used by the archive follower
(`storage/vector_store.py`) -/

/-- A row of the `creators` table. -/
structure CreatorRow where
  id : Int
  name : String
  url : String
deriving Repr, DecidableEq

/-- A row of the `videos` table. -/
structure VideoRow where
  id : Int
  creator_id : Int
  url : String
  title : String
  processed : Bool
deriving Repr, DecidableEq

/-- A row of the `live_ingest_state` table (the `updated_at` wall-clock
string is not modelled; no claim concerns it). -/
structure LiveIngestRow where
  vod_platform_id : String
  video_id : Int
  streamer : String
  last_ingested_seconds : Int
  last_seen_duration_seconds : Int
deriving Repr, DecidableEq

/-- The relational store: creators, videos and live-ingest rows, plus the
`AUTOINCREMENT` counters of the two id columns. -/
structure StoreState where
  creators : List CreatorRow
  videos : List VideoRow
  ingest : List LiveIngestRow
  nextCreatorId : Int
  nextVideoId : Int
deriving Repr, DecidableEq

/-- `VectorStore.create_or_get_creator`: `INSERT OR IGNORE` on the unique
`url`, then `SELECT id WHERE url = ?`. -/
def create_or_get_creator (db : StoreState) (name url : String) :
    Int × StoreState :=
  match db.creators.find? (fun c => c.url == url) with
  | some c => (c.id, db)
  | none =>
    (db.nextCreatorId,
     { db with creators := db.creators ++ [⟨db.nextCreatorId, name, url⟩],
               nextCreatorId := db.nextCreatorId + 1 })

/-- `VectorStore.get_video_by_url` with `LIMIT 1`: the first row in table
order whose url matches. -/
def get_video_by_url (db : StoreState) (url : String) : Option VideoRow :=
  db.videos.find? (fun v => v.url == url)

/-- `VectorStore.create_video`: plain insert, returning `lastrowid`. -/
def create_video (db : StoreState) (creator_id : Int) (url title : String)
    (processed : Bool) : Int × StoreState :=
  (db.nextVideoId,
   { db with videos := db.videos ++ [⟨db.nextVideoId, creator_id, url, title, processed⟩],
             nextVideoId := db.nextVideoId + 1 })

/-- `VectorStore.mark_video_processed`:
`UPDATE videos SET processed = ? WHERE id = ?`. -/
def mark_video_processed (db : StoreState) (video_id : Int) (processed : Bool) :
    StoreState :=
  let upd := fun (v : VideoRow) =>
    if v.id == video_id then { v with processed := processed } else v
  { db with videos := db.videos.map upd }

/-- `VectorStore.get_live_ingest_state`: lookup on the primary key. -/
def get_live_ingest_state (db : StoreState) (vod_platform_id : String) :
    Option LiveIngestRow :=
  db.ingest.find? (fun r => r.vod_platform_id == vod_platform_id)

/-- `VectorStore.upsert_live_ingest_state`:
`INSERT ... ON CONFLICT(vod_platform_id) DO UPDATE SET ...`. -/
def upsert_live_ingest_state (db : StoreState) (row : LiveIngestRow) :
    StoreState :=
  let repl := fun (r : LiveIngestRow) =>
    if r.vod_platform_id == row.vod_platform_id then row else r
  if db.ingest.any (fun r => r.vod_platform_id == row.vod_platform_id) then
    { db with ingest := db.ingest.map repl }
  else
    { db with ingest := db.ingest ++ [row] }

/-! ## Archive follower (`sources/live_archive_vod_source.py`)

The follower's sqlite store is the `StoreState` above.  The Twitch platform
and the wall clock are modelled as an environment value passed to each call;
wall-clock instants are integers (the follower only compares time differences
against `poll_seconds`, and no verified claim involves fractional time).
`ffmpeg`/`yt-dlp` media extraction is modelled as deterministically producing
the formatted output path; its two failure modes that depend only on program
state (non-positive duration, missing VOD url) are kept as errors, and the
media-url cache fields, which feed only the external subprocess calls, are
not modelled. -/

/-- The latest-archive metadata dict returned by
`TwitchMonitor.get_latest_archive_vod`. -/
structure VodInfo where
  id : String
  url : String
  title : Option String
  duration_seconds : Option Int
deriving Repr, DecidableEq

/-- One observation of the outside world: the current time and what the
Twitch adapter would answer right now. -/
structure Env where
  now : Int
  is_live : Bool
  user_id : String
  latest_vod : Option VodInfo
deriving Repr, DecidableEq

/-- The mutable attributes of `LiveArchiveVODSource`. -/
structure SourceState where
  streamer : String
  chunk_seconds : Int
  lag_seconds : Int
  poll_seconds : Int
  finalize_checks : Int
  temp_dir : String
  video_id : Option Int
  current_vod_url : Option String
  ingest_cursor_seconds : Option Int
  finished : Bool
  started : Bool
  user_id : Option String
  vod_platform_id : Option String
  vod_title : Option String
  last_seen_duration_seconds : Int
  last_is_live : Option Bool
  no_growth_checks : Int
  last_refresh_at : Int
  pending_commit_end_seconds : Option Int
  pending_chunk_path : Option String
deriving Repr, DecidableEq

/-- `AudioChunk` (`sources/audio_chunk.py`); the two float fields receive
integer second counts cast by `float(...)`. -/
structure AudioChunk where
  audio_path : String
  offset_seconds : ℚ
  duration_seconds : ℚ
deriving Repr, DecidableEq

/-- Python's `value.strip().lower()` on a streamer name: drop whitespace at
both ends, then lowercase each character. -/
def pyStripLower (s : String) : String :=
  String.mk
    (((s.data.dropWhile Char.isWhitespace).reverse.dropWhile
        Char.isWhitespace).reverse.map Char.toLower)

/-- Python's `x or default` on an optional string: `None` and the empty
string are both falsy. -/
def pyOrStr (o : Option String) (d : String) : String :=
  match o with
  | some s => if s = "" then d else s
  | none => d

/-- `LiveArchiveVODSource.__init__`. -/
def sourceInit (streamer : String) (chunk_seconds lag_seconds poll_seconds
    finalize_checks : Int) (temp_dir : String) : SourceState :=
  { streamer := pyStripLower streamer
    chunk_seconds := chunk_seconds
    lag_seconds := lag_seconds
    poll_seconds := poll_seconds
    finalize_checks := finalize_checks
    temp_dir := temp_dir
    video_id := none
    current_vod_url := none
    ingest_cursor_seconds := some 0
    finished := false
    started := false
    user_id := none
    vod_platform_id := none
    vod_title := none
    last_seen_duration_seconds := 0
    last_is_live := none
    no_growth_checks := 0
    last_refresh_at := 0
    pending_commit_end_seconds := none
    pending_chunk_path := none }

/-- The cursor as read by `next_chunk`: `int(self.ingest_cursor_seconds or 0)`. -/
def cursorOf (s : SourceState) : Int := s.ingest_cursor_seconds.getD 0

/-- `safe_end = last_seen_duration_seconds − (lag_seconds if last_is_live
else 0)` (Python truthiness: `None` and `False` both select 0). -/
def safeEndOf (s : SourceState) : Int :=
  s.last_seen_duration_seconds -
    (if s.last_is_live = some true then s.lag_seconds else 0)

/-- `LiveArchiveVODSource._save_ingest_state`. -/
def save_ingest_state (s : SourceState) (db : StoreState) : StoreState :=
  match s.vod_platform_id, s.video_id with
  | some pid, some vid =>
    upsert_live_ingest_state db
      ⟨pid, vid, s.streamer, s.ingest_cursor_seconds.getD 0,
       s.last_seen_duration_seconds⟩
  | _, _ => db

/-- `LiveArchiveVODSource._commit_pending_progress`: advance the cursor to
the pending end, persist, and drop the pending chunk file. -/
def commit_pending_progress (s : SourceState) (db : StoreState) :
    SourceState × StoreState :=
  match s.pending_commit_end_seconds with
  | none => (s, db)
  | some endSec =>
    if s.vod_platform_id = none ∨ s.video_id = none then (s, db)
    else
      let s1 := { s with ingest_cursor_seconds := some endSec,
                         pending_commit_end_seconds := none }
      let db1 := save_ingest_state s1 db
      ({ s1 with pending_chunk_path := none }, db1)

/-- `LiveArchiveVODSource._switch_to_vod`. -/
def switch_to_vod (vod : VodInfo) (s : SourceState) (db : StoreState) :
    SourceState × StoreState :=
  let newTitle := pyOrStr vod.title ("Live stream by " ++ s.streamer)
  let s1 := { s with vod_platform_id := some vod.id,
                     current_vod_url := some vod.url,
                     vod_title := some newTitle }
  let creator_url := "https://twitch.tv/" ++ s1.streamer
  let p := create_or_get_creator db s1.streamer creator_url
  let q :=
    match get_video_by_url p.2 vod.url with
    | none =>
      let r := create_video p.2 p.1 vod.url (s1.vod_title.getD "") false
      ({ s1 with video_id := some r.1 }, r.2)
    | some existing =>
      ({ s1 with video_id := some existing.id },
       mark_video_processed p.2 existing.id false)
  let s2 :=
    match get_live_ingest_state q.2 vod.id with
    | none => { q.1 with ingest_cursor_seconds := some 0 }
    | some st =>
      { q.1 with ingest_cursor_seconds := some st.last_ingested_seconds,
                 last_seen_duration_seconds := st.last_seen_duration_seconds }
  ({ s2 with pending_commit_end_seconds := none,
             pending_chunk_path := none,
             no_growth_checks := 0 }, q.2)

/-- `LiveArchiveVODSource._refresh_state`. -/
def refresh_state (force : Bool) (env : Env) (s : SourceState)
    (db : StoreState) : SourceState × StoreState :=
  if s.started = false then (s, db)
  else if force = false ∧ env.now - s.last_refresh_at < s.poll_seconds then
    (s, db)
  else
    let s1 := { s with last_refresh_at := env.now,
                       last_is_live := some env.is_live }
    let s2 := if s1.user_id = none then { s1 with user_id := some env.user_id }
              else s1
    match env.latest_vod with
    | none => (s2, db)
    | some vod =>
      let p := if s2.vod_platform_id ≠ some vod.id then switch_to_vod vod s2 db
               else (s2, db)
      let duration := vod.duration_seconds.getD 0
      let s3 :=
        if duration > p.1.last_seen_duration_seconds then
          { p.1 with last_seen_duration_seconds := duration,
                     no_growth_checks := 0 }
        else if p.1.last_is_live = some false then
          { p.1 with no_growth_checks := p.1.no_growth_checks + 1 }
        else p.1
      (s3, save_ingest_state s3 p.2)

/-- Zero-padded decimal rendering of a nonnegative count, as Python's
`{n:08d}` format on a nonnegative int. -/
def padNum (w : Nat) (n : Int) : String :=
  let digits := toString n.natAbs
  let sign := if n < 0 then "-" else ""
  sign ++ String.mk (List.replicate (w - digits.length - sign.length) '0') ++ digits

/-- `LiveArchiveVODSource._extract_chunk`, with the external
`ffmpeg`/`yt-dlp` steps modelled as succeeding and producing the formatted
output path.  The state-dependent guard failures of the source are kept. -/
def extract_chunk (start_seconds duration_seconds : Int) (s : SourceState) :
    Except String String :=
  if duration_seconds ≤ 0 then .error "duration_seconds must be positive"
  else if s.current_vod_url.getD "" = "" then
    .error "current_vod_url is not set"
  else
    .ok (s.temp_dir ++ "/vod_" ++
      (match s.vod_platform_id with | some p => p | none => "None") ++ "_" ++
      padNum 8 start_seconds ++ "_" ++ padNum 4 duration_seconds ++ ".wav")

/-- `LiveArchiveVODSource._finalize`: commit any pending window, set
`processed=true` on the Video row, and mark the source finished. -/
def finalize (s : SourceState) (db : StoreState) : SourceState × StoreState :=
  let p := commit_pending_progress s db
  let db1 :=
    match p.1.video_id with
    | some vid => mark_video_processed p.2 vid true
    | none => p.2
  ({ p.1 with finished := true }, db1)

/-- `LiveArchiveVODSource.next_chunk`.  A raised `RuntimeError` from the
extraction guards is `Except.error` (the state mutated so far is kept, as in
Python). -/
def next_chunk (env : Env) (s : SourceState) (db : StoreState) :
    Except String (Option AudioChunk) × SourceState × StoreState :=
  if s.finished then (.ok none, s, db)
  else
    let p := commit_pending_progress s db
    let q := refresh_state false env p.1 p.2
    let s1 := q.1
    let db1 := q.2
    if s1.vod_platform_id = none ∨ s1.video_id = none then
      if s1.last_is_live = some false then
        (.ok none, { s1 with finished := true }, db1)
      else (.ok none, s1, db1)
    else
      let cursor := cursorOf s1
      let safe_end := safeEndOf s1
      if safe_end > cursor then
        let chunk_len := min s1.chunk_seconds (safe_end - cursor)
        match extract_chunk cursor chunk_len s1 with
        | .error e => (.error e, s1, db1)
        | .ok chunk_path =>
          (.ok (some ⟨chunk_path, (cursor : ℚ), (chunk_len : ℚ)⟩),
           { s1 with pending_commit_end_seconds := some (cursor + chunk_len),
                     pending_chunk_path := some chunk_path }, db1)
      else if s1.last_is_live = some false ∧
          s1.no_growth_checks ≥ s1.finalize_checks then
        let r := finalize s1 db1
        (.ok none, r.1, r.2)
      else (.ok none, s1, db1)

/-- `LiveArchiveVODSource.start`: mark started and force one refresh.
(The temp-directory creation is a filesystem effect outside the model.) -/
def sourceStart (env : Env) (s : SourceState) (db : StoreState) :
    SourceState × StoreState :=
  refresh_state true env { s with started := true } db

/-- A sequence of `next_chunk` calls under a sequence of environment
observations, keeping only the evolving state. -/
def runChunks : List Env → SourceState → StoreState → SourceState × StoreState
  | [], s, db => (s, db)
  | env :: rest, s, db =>
    let r := next_chunk env s db
    runChunks rest r.2.1 r.2.2

/-! ## Monitor supervisor (`backend/services/monitor_manager.py`)

`MonitorManager.start` runs its decision logic under `self._lock`; the model
is that atomic section as a pure transition.  The spawned worker thread is
represented by the `thread_alive` flag (`self._thread is not None and
self._thread.is_alive()`). -/

/-- `MonitorStatus` (the dataclass defaults). -/
structure MonitorStatus where
  state : String := "idle"
  streamer : Option String := none
  is_live : Option Bool := none
  started_at : Option String := none
  last_check_at : Option String := none
  last_error : Option String := none
  current_video_id : Option Int := none
  current_vod_url : Option String := none
  ingest_cursor_seconds : Option Int := none
  lag_seconds : Option Int := none
deriving Repr, DecidableEq

/-- The supervisor state visible to `start` / `can_search`. -/
structure ManagerState where
  status : MonitorStatus
  thread_alive : Bool
  archive_lag_seconds : Int
deriving Repr, DecidableEq

/-- The two exceptions `start` can raise. -/
inductive StartError where
  | valueError (msg : String)
  | monitorConflict (msg : String)
deriving Repr, DecidableEq

/-- `MonitorManager.can_search`: true iff the status state is `"idle"`. -/
def can_search (m : ManagerState) : Bool :=
  m.status.state == "idle"

/-- `MonitorManager.start`: normalize the name; reject empty; while a worker
is alive, return the current status for the same streamer and raise
`MonitorConflictError` for a different one; otherwise install a fresh
`polling` status and spawn the worker. -/
def managerStart (m : ManagerState) (streamer : String) (now_iso : String) :
    Except StartError MonitorStatus × ManagerState :=
  let streamer := pyStripLower streamer
  if streamer = "" then (.error (.valueError "streamer is required"), m)
  else if m.thread_alive then
    if m.status.streamer = some streamer then (.ok m.status, m)
    else
      (.error (.monitorConflict ("Monitor already running for " ++
        (match m.status.streamer with | some s => s | none => "None") ++
        ". Stop first to switch.")), m)
  else
    let st : MonitorStatus :=
      { state := "polling"
        streamer := some streamer
        is_live := none
        started_at := some now_iso
        last_check_at := none
        last_error := none
        current_video_id := none
        current_vod_url := none
        ingest_cursor_seconds := none
        lag_seconds := some m.archive_lag_seconds }
    (.ok st, { m with status := st, thread_alive := true })

/-! ## Concrete scenarios -/

/-- The S1/S2 archive: the latest VOD reported by the fake monitor, with
`duration_seconds = 240`. -/
def vod240 : VodInfo :=
  ⟨"vod-1", "https://www.twitch.tv/videos/vod-1", some "Live stream", some 240⟩

/-- An observation at time `t` with the platform reporting live. -/
def envLive (t : Int) : Env := ⟨t, true, "user-1", some vod240⟩

/-- An observation at time `t` with the platform reporting offline (the
archive metadata still present, duration unchanged). -/
def envOff (t : Int) : Env := ⟨t, false, "user-1", some vod240⟩

/-- An empty relational store. -/
def db0 : StoreState := ⟨[], [], [], 1, 1⟩

/-- The S1/S2 follower: chunk 60, lag 120, poll 15, finalize_checks 3. -/
def s0 : SourceState := sourceInit "alice" 60 120 15 3 "tmp"

/-- State after `start()` under a live poll at time 0. -/
def p1 : SourceState × StoreState := sourceStart (envLive 0) s0 db0

/-- First `next_chunk` of scenario S1 (time 16, a fresh poll). -/
def s1c1 : Except String (Option AudioChunk) × SourceState × StoreState :=
  next_chunk (envLive 16) p1.1 p1.2

/-- Second `next_chunk` of scenario S1. -/
def s1c2 : Except String (Option AudioChunk) × SourceState × StoreState :=
  next_chunk (envLive 32) s1c1.2.1 s1c1.2.2

/-- The later archive that the platform switches to in the cursor-reset run:
a different platform id with a short duration. -/
def vodB : VodInfo :=
  ⟨"vod-2", "https://www.twitch.tv/videos/vod-2", some "Next stream", some 100⟩

/-- Third call of the cursor-reset run: the platform now reports `vod-2` as
the latest archive, so the follower switches VODs. -/
def s1c3switch : Except String (Option AudioChunk) × SourceState × StoreState :=
  next_chunk ⟨48, true, "user-1", some vodB⟩ s1c2.2.1 s1c2.2.2

/-- The poll sequence of scenario S2 after the live start poll:
one more live poll, then four offline polls. -/
def envsS2 : List Env :=
  [envLive 16, envOff 32, envOff 48, envOff 64, envOff 80, envOff 96]

/-- Final state of scenario S2. -/
def s2fin : SourceState × StoreState := runChunks envsS2 p1.1 p1.2

/-- State of scenario S2 after four calls — the call after this one
finalizes. -/
def s2pre : SourceState × StoreState :=
  runChunks [envLive 16, envOff 32, envOff 48, envOff 64] p1.1 p1.2

/-- The intermediate state of one `next_chunk` call after the commit and
refresh steps, against which the window condition is evaluated. -/
def preState (env : Env) (s : SourceState) (db : StoreState) :
    SourceState × StoreState :=
  let p := commit_pending_progress s db
  refresh_state false env p.1 p.2

/-- `c` concatenated copies of a list. -/
def repList (c : Nat) (l : List α) : List α :=
  match c with
  | 0 => []
  | n + 1 => l ++ repList n l

/-- The vote bucket a single visit resolves to, if any. -/
def stepKey (rows : List FpRow) (st : Int × ℚ) : Option (Int × Int) :=
  (dictLookup rows st.1).map
    (fun r => (r.video_id, pythonRound (r.timestamp_seconds - st.2)))

/-- How many visits of a visit sequence resolve to a given bucket. -/
def hitCount (rows : List FpRow) (steps : List (Int × ℚ)) (k : Int × Int) :
    Nat :=
  (steps.filterMap (stepKey rows)).count k

/-- The buckets of a vote table, in first-insertion order. -/
def voteKeys (v : List ((Int × Int) × Nat)) : List (Int × Int) :=
  v.map Prod.fst

/-- The count recorded for a bucket (its first entry; zero if absent). -/
def countKey (v : List ((Int × Int) × Nat)) (k : Int × Int) : Nat :=
  ((v.find? (fun p => p.1 == k)).map Prod.snd).getD 0

/-! ## Invariants of the archive follower -/

/-- Invariant of the persisted `live_ingest_state` rows: the committed cursor
never exceeds the last observed archive duration, which is nonnegative. -/
abbrev IngestRowsOK (db : StoreState) : Prop :=
  ∀ r ∈ db.ingest,
    r.last_ingested_seconds ≤ r.last_seen_duration_seconds ∧
    0 ≤ r.last_seen_duration_seconds

/-- The follower invariant: a nonnegative lag configuration, a nonnegative
last-seen duration bounding the cursor, a pending window end between the
cursor and the last-seen duration, and well-formed persisted rows. -/
abbrev SrcInv (s : SourceState) (db : StoreState) : Prop :=
  0 ≤ s.lag_seconds ∧
  0 ≤ s.last_seen_duration_seconds ∧
  cursorOf s ≤ s.last_seen_duration_seconds ∧
  (∀ p ∈ s.pending_commit_end_seconds,
    cursorOf s ≤ p ∧ p ≤ s.last_seen_duration_seconds) ∧
  IngestRowsOK db

/-! # Theorems -/

/-- C3: on scenario S3 — store `tableS3`, neighbors `[[1,3],[2,3],[2,1]]`,
query timestamps `[0,1,1]`, thresholds `(count ≥ 2, ratio ≥ 0.5)` — `align`
accepts with `video_id = 100`, `timestamp_seconds = 10` and score `1 ≥ 0.5`,
and the vote table indeed gives bucket `(100, 10)` three votes. -/
theorem claim_C3 :
    align { min_vote_count := 2, min_vote_ratio := 1 / 2 } tableS3
        [[1, 3], [2, 3], [2, 1]] [0, 1, 1] =
      { found := true, video_id := some 100, timestamp_seconds := some 10,
        score := some 1,
        reason := some "Accepted with 3 votes (1.000 ratio)" } ∧
    (1 : ℚ) / 2 ≤ 1 ∧
    alignVotes tableS3 [[1, 3], [2, 3], [2, 1]] [0, 1, 1] =
      [((100, 10), 3), ((200, 40), 1), ((200, 39), 1), ((100, 9), 1)] := by
  refine ⟨?_, by norm_num, ?_⟩
  · norm_num +decide [align, voteSteps, get_fingerprint_rows, runVotes,
      dictLookup, bumpVote, pythonRound, npSize2, tableS3, mostCommon1, fmt3,
      countMsg, ratioMsg, acceptMsg]
  · norm_num +decide [alignVotes, voteSteps, get_fingerprint_rows, runVotes,
      dictLookup, bumpVote, pythonRound, npSize2, tableS3]

/-- C1: on scenario S1 the first `next_chunk` returns the window
`(offset 0, duration 60)` while the cursor stays 0, and the second call first
commits the cursor to 60 and then returns the window starting at 60; in
general a `next_chunk` call returns a window only when, on the state after
the commit and refresh steps, `safe_end > cursor`, the window starts at the
cursor with length `min(chunk_seconds, safe_end − cursor)`, and the cursor is
not advanced by returning it. -/
theorem claim_C1 :
    ((s1c1.1 = .ok (some ⟨"tmp/vod_vod-1_00000000_0060.wav", 0, 60⟩) ∧
      s1c1.2.1.ingest_cursor_seconds = some 0) ∧
     (s1c2.2.1.ingest_cursor_seconds = some 60 ∧
      s1c2.1 = .ok (some ⟨"tmp/vod_vod-1_00000060_0060.wav", 60, 60⟩))) ∧
    (∀ (env : Env) (s : SourceState) (db : StoreState) (c : AudioChunk)
       (s' : SourceState) (db' : StoreState),
      next_chunk env s db = (.ok (some c), s', db') →
      safeEndOf (preState env s db).1 > cursorOf (preState env s db).1 ∧
      c.offset_seconds = (cursorOf (preState env s db).1 : ℚ) ∧
      c.duration_seconds = ((min (preState env s db).1.chunk_seconds
        (safeEndOf (preState env s db).1 - cursorOf (preState env s db).1) : Int) : ℚ) ∧
      s'.ingest_cursor_seconds = (preState env s db).1.ingest_cursor_seconds) := by
  refine ⟨⟨⟨by decide, by decide⟩, ⟨by decide, by decide⟩⟩, ?_⟩
  intro env s db c s' db' h
  unfold preState
  by_cases hfin : s.finished = true
  · simp only [next_chunk, if_pos hfin, Prod.mk.injEq] at h
    simp at h
  · simp only [next_chunk, Bool.not_eq_true] at hfin
    simp only [next_chunk, hfin, Bool.false_eq_true, if_false] at h
    split at h
    · split at h <;> simp at h
    · split at h
      · split at h
        · simp at h
        · simp only [Prod.mk.injEq, Except.ok.injEq, Option.some.injEq] at h
          obtain ⟨hc, hs, _⟩ := h
          subst hc
          subst hs
          refine ⟨by assumption, rfl, rfl, rfl⟩
      · split at h <;> simp at h

/-- C1 witness: the window rule instantiated at the first S1 call — the
returned chunk starts at the cursor with length
`min(chunk_seconds, safe_end − cursor)` and the cursor is unchanged. -/
theorem claim_C1_witness :
    safeEndOf (preState (envLive 16) p1.1 p1.2).1 >
      cursorOf (preState (envLive 16) p1.1 p1.2).1 ∧
    (⟨"tmp/vod_vod-1_00000000_0060.wav", 0, 60⟩ : AudioChunk).offset_seconds =
      (cursorOf (preState (envLive 16) p1.1 p1.2).1 : ℚ) ∧
    (⟨"tmp/vod_vod-1_00000000_0060.wav", 0, 60⟩ : AudioChunk).duration_seconds =
      ((min (preState (envLive 16) p1.1 p1.2).1.chunk_seconds
        (safeEndOf (preState (envLive 16) p1.1 p1.2).1 -
          cursorOf (preState (envLive 16) p1.1 p1.2).1) : Int) : ℚ) ∧
    s1c1.2.1.ingest_cursor_seconds =
      (preState (envLive 16) p1.1 p1.2).1.ingest_cursor_seconds :=
  claim_C1.2 (envLive 16) p1.1 p1.2 ⟨"tmp/vod_vod-1_00000000_0060.wav", 0, 60⟩
    s1c1.2.1 s1c1.2.2 (by decide)

/-- An ingest-state upsert never touches the video table. -/
theorem upsert_videos (db : StoreState) (row : LiveIngestRow) :
    (upsert_live_ingest_state db row).videos = db.videos := by
  unfold upsert_live_ingest_state
  split <;> rfl

/-- Persisting the ingest state never touches the video table. -/
theorem save_videos (s : SourceState) (db : StoreState) :
    (save_ingest_state s db).videos = db.videos := by
  unfold save_ingest_state
  split
  · exact upsert_videos _ _
  · rfl

/-- A commit never touches the video table or the follower's video id. -/
theorem commit_videos (s : SourceState) (db : StoreState) :
    (commit_pending_progress s db).1.video_id = s.video_id ∧
    (commit_pending_progress s db).2.videos = db.videos := by
  unfold commit_pending_progress
  split
  · exact ⟨rfl, rfl⟩
  · split
    · exact ⟨rfl, rfl⟩
    · exact ⟨rfl, save_videos _ _⟩

/-- After `mark_video_processed db vid p`, every row with id `vid` carries
`processed = p`. -/
theorem mark_processed_mem (db : StoreState) (vid : Int) (p : Bool) :
    ∀ v ∈ (mark_video_processed db vid p).videos, v.id = vid →
      v.processed = p := by
  intro v hv hid
  unfold mark_video_processed at hv
  simp only [List.mem_map] at hv
  obtain ⟨w, _, hw⟩ := hv
  by_cases hwid : (w.id == vid) = true
  · rw [if_pos hwid] at hw
    subst hw
    rfl
  · rw [if_neg hwid] at hw
    subst hw
    exact absurd (by exact beq_iff_eq.mpr hid) hwid

/-- C7: in scenario S2 (polls `[live, live, offline, offline, offline,
offline]`) the follower ends with `is_finished = true` and the Video row
`processed = true`, and afterwards `next_chunk` returns `none`; in general a
finished source returns `none` and is left unchanged, and when the platform
is offline with `no_growth_checks ≥ finalize_checks` and no ingestible
window remains, `next_chunk` finalizes: it returns `none`, marks the source
finished, and sets `processed = true` on its Video row. -/
theorem claim_C7 :
    (s2fin.1.finished = true ∧
     s2fin.2.videos.map VideoRow.processed = [true] ∧
     (next_chunk (envOff 112) s2fin.1 s2fin.2).1 = .ok none) ∧
    (∀ (env : Env) (s : SourceState) (db : StoreState),
      s.finished = true → next_chunk env s db = (.ok none, s, db)) ∧
    (∀ (env : Env) (s : SourceState) (db : StoreState),
      s.finished = false →
      (preState env s db).1.vod_platform_id ≠ none →
      (preState env s db).1.video_id ≠ none →
      ¬ safeEndOf (preState env s db).1 > cursorOf (preState env s db).1 →
      (preState env s db).1.last_is_live = some false →
      (preState env s db).1.no_growth_checks ≥
        (preState env s db).1.finalize_checks →
      next_chunk env s db =
        (.ok none, finalize (preState env s db).1 (preState env s db).2) ∧
      (next_chunk env s db).2.1.finished = true ∧
      (∀ v ∈ (next_chunk env s db).2.2.videos,
        some v.id = (preState env s db).1.video_id → v.processed = true)) := by
  refine ⟨⟨by decide, by decide, by decide⟩, ?_, ?_⟩
  · intro env s db hfin
    simp only [next_chunk, if_pos hfin]
  · intro env s db hfin hpid hvid hsafe hlive hngc
    have hnfin : ¬ s.finished = true := by simp [hfin]
    have hguard : ¬ ((preState env s db).1.vod_platform_id = none ∨
        (preState env s db).1.video_id = none) := by
      push_neg
      exact ⟨hpid, hvid⟩
    have heq : next_chunk env s db =
        (.ok none, finalize (preState env s db).1 (preState env s db).2) := by
      have hps : refresh_state false env (commit_pending_progress s db).1
          (commit_pending_progress s db).2 = preState env s db := rfl
      simp only [next_chunk, hfin, Bool.false_eq_true, if_false, hps]
      rw [if_neg hguard, if_neg hsafe, if_pos ⟨hlive, hngc⟩]
    refine ⟨heq, ?_, ?_⟩
    · rw [heq]
      rfl
    · intro v hv hid
      rw [heq] at hv
      obtain ⟨vid, hvid'⟩ := Option.ne_none_iff_exists'.mp hvid
      unfold finalize at hv
      simp only [(commit_videos (preState env s db).1 (preState env s db).2).1,
        hvid'] at hv
      refine mark_processed_mem _ vid true v hv ?_
      rw [hvid'] at hid
      exact Option.some_injective _ hid

/-- C7 witness: the general parts of the theorem at scenario S2 — the
finalize step of the fifth call and the no-op behaviour once finished. -/
theorem claim_C7_witness :
    ((next_chunk (envOff 80) s2pre.1 s2pre.2).2.1.finished = true) ∧
    next_chunk (envOff 112) s2fin.1 s2fin.2 = (.ok none, s2fin.1, s2fin.2) :=
  ⟨((claim_C7.2.2 (envOff 80) s2pre.1 s2pre.2 (by decide) (by decide)
      (by decide) (by decide) (by decide) (by decide)).2).1,
   claim_C7.2.1 (envOff 112) s2fin.1 s2fin.2 (by decide)⟩

/-- C2 counterexample: on the cursor-reset run the committed cursor is 60
after the second call, and the third call — in which the platform's latest
archive changes to `vod-2` — leaves `ingest_cursor_seconds = 0`: the cursor
decreased across `next_chunk` calls on one follower. -/
theorem claim_C2_counterexample :
    cursorOf s1c2.2.1 = 60 ∧ cursorOf s1c3switch.2.1 = 0 ∧
    cursorOf s1c3switch.2.1 < cursorOf s1c2.2.1 := by
  refine ⟨by decide, by decide, by decide⟩

/-- The creator insert never touches the ingest table. -/
theorem creator_ingest (db : StoreState) (n u : String) :
    (create_or_get_creator db n u).2.ingest = db.ingest := by
  unfold create_or_get_creator
  split <;> rfl

/-- A VOD switch never touches the ingest table. -/
theorem switch_ingest (vod : VodInfo) (s : SourceState) (db : StoreState) :
    (switch_to_vod vod s db).2.ingest = db.ingest := by
  simp only [switch_to_vod]
  split
  · exact creator_ingest ..
  · exact creator_ingest ..

/-- A VOD switch sets the follower's platform id to the new VOD's id. -/
theorem switch_pid (vod : VodInfo) (s : SourceState) (db : StoreState) :
    (switch_to_vod vod s db).1.vod_platform_id = some vod.id := by
  simp only [switch_to_vod]
  split <;> split <;> rfl

/-- Creating a video row never touches the ingest table. -/
theorem create_video_ingest (db : StoreState) (c : Int) (u t : String)
    (p : Bool) : (create_video db c u t p).2.ingest = db.ingest := rfl

/-- Marking a video processed never touches the ingest table. -/
theorem mark_ingest (db : StoreState) (v : Int) (p : Bool) :
    (mark_video_processed db v p).ingest = db.ingest := rfl

/-- A VOD switch adopts the persisted cursor and duration, or resets them. -/
theorem switch_inv {vod : VodInfo} {s : SourceState} {db : StoreState}
    (h : SrcInv s db) :
    SrcInv (switch_to_vod vod s db).1 (switch_to_vod vod s db).2 := by
  obtain ⟨hlag, hls, _, _, hrows⟩ := h
  have hing : ∀ rr, rr ∈ (switch_to_vod vod s db).2.ingest → rr ∈ db.ingest := by
    intro rr hrr
    rwa [switch_ingest] at hrr
  simp only [switch_to_vod] at hing ⊢
  split <;> split
  · rename_i x1 heqv x2 heqi
    simp only [heqi] at hing
    refine ⟨by simpa using hlag, by simpa using hls,
      by simpa [cursorOf] using hls, by simp, ?_⟩
    intro rr hrr
    exact hrows rr (hing rr hrr)
  · rename_i x1 heqv x2 existing heqi
    simp only [heqi] at hing
    refine ⟨by simpa using hlag, by simpa using hls,
      by simpa [cursorOf] using hls, by simp, ?_⟩
    intro rr hrr
    exact hrows rr (hing rr hrr)
  · rename_i x1 st heqv x2 heqi
    simp only [heqi] at heqv hing
    unfold get_live_ingest_state at heqv
    have hmem := List.mem_of_find?_eq_some heqv
    simp only [create_video_ingest, creator_ingest] at hmem
    obtain ⟨h1, h2⟩ := hrows st hmem
    refine ⟨by simpa using hlag, by simpa using h2,
      by simpa [cursorOf] using h1, by simp, ?_⟩
    intro rr hrr
    exact hrows rr (hing rr hrr)
  · rename_i x1 st heqv x2 existing heqi
    simp only [heqi] at heqv hing
    unfold get_live_ingest_state at heqv
    have hmem := List.mem_of_find?_eq_some heqv
    simp only [mark_ingest, creator_ingest] at hmem
    obtain ⟨h1, h2⟩ := hrows st hmem
    refine ⟨by simpa using hlag, by simpa using h2,
      by simpa [cursorOf] using h1, by simp, ?_⟩
    intro rr hrr
    exact hrows rr (hing rr hrr)

/-- The follower invariant only depends on four state fields; it transfers
to any state agreeing on them. -/
theorem srcinv_of_fields {s s' : SourceState} {db : StoreState}
    (h : SrcInv s db)
    (h1 : s'.lag_seconds = s.lag_seconds)
    (h2 : s'.last_seen_duration_seconds = s.last_seen_duration_seconds)
    (h3 : s'.ingest_cursor_seconds = s.ingest_cursor_seconds)
    (h4 : s'.pending_commit_end_seconds = s.pending_commit_end_seconds) :
    SrcInv s' db := by
  obtain ⟨a, b, c, d, e⟩ := h
  refine ⟨h1 ▸ a, h2 ▸ b, ?_, ?_, e⟩
  · unfold cursorOf
    rw [h3, h2]
    exact c
  · intro p hp
    rw [h4] at hp
    obtain ⟨x, y⟩ := d p hp
    unfold cursorOf
    rw [h3, h2]
    exact ⟨x, y⟩

/-- An upsert of a well-formed row preserves the row invariant. -/
theorem upsert_rows_ok {db : StoreState} {row : LiveIngestRow}
    (h : IngestRowsOK db)
    (h1 : row.last_ingested_seconds ≤ row.last_seen_duration_seconds)
    (h2 : 0 ≤ row.last_seen_duration_seconds) :
    IngestRowsOK (upsert_live_ingest_state db row) := by
  intro r hr
  simp only [upsert_live_ingest_state] at hr
  split at hr
  · simp only [List.mem_map] at hr
    obtain ⟨w, hw, hrepl⟩ := hr
    by_cases hc : (w.vod_platform_id == row.vod_platform_id) = true
    · rw [if_pos hc] at hrepl
      exact hrepl ▸ ⟨h1, h2⟩
    · rw [if_neg hc] at hrepl
      exact hrepl ▸ h w hw
  · rcases List.mem_append.mp hr with h' | h'
    · exact h r h'
    · simp only [List.mem_singleton] at h'
      subst h'
      exact ⟨h1, h2⟩

/-- Persisting a state whose cursor is bounded by its nonnegative duration
preserves the row invariant. -/
theorem save_rows_ok {s : SourceState} {db : StoreState}
    (hc : cursorOf s ≤ s.last_seen_duration_seconds)
    (h0 : 0 ≤ s.last_seen_duration_seconds)
    (h : IngestRowsOK db) : IngestRowsOK (save_ingest_state s db) := by
  unfold save_ingest_state
  split
  · exact upsert_rows_ok h hc h0
  · exact h

/-- The commit step never changes the platform id. -/
theorem commit_pid (s : SourceState) (db : StoreState) :
    (commit_pending_progress s db).1.vod_platform_id = s.vod_platform_id := by
  unfold commit_pending_progress
  split
  · rfl
  · split
    · rfl
    · rfl

/-- The commit step preserves the invariant and never moves the cursor
backwards. -/
theorem commit_inv {s : SourceState} {db : StoreState} (h : SrcInv s db) :
    SrcInv (commit_pending_progress s db).1 (commit_pending_progress s db).2 ∧
    cursorOf s ≤ cursorOf (commit_pending_progress s db).1 := by
  obtain ⟨hlag, hls, hcur, hpend, hrows⟩ := h
  simp only [commit_pending_progress]
  split
  · exact ⟨⟨hlag, hls, hcur, hpend, hrows⟩, le_refl _⟩
  · rename_i x e heq
    split
    · exact ⟨⟨hlag, hls, hcur, hpend, hrows⟩, le_refl _⟩
    · obtain ⟨hce, hel⟩ := hpend e (by simp [heq])
      refine ⟨⟨hlag, by simpa using hls, ?_, by simp, ?_⟩, ?_⟩
      · simpa [cursorOf] using hel
      · exact save_rows_ok (by simpa [cursorOf] using hel) (by simpa using hls)
          hrows
      · simpa [cursorOf] using hce

/-- A successful extraction implies a positive window length. -/
theorem extract_pos {a b : Int} {s : SourceState} {r : String}
    (h : extract_chunk a b s = .ok r) : 0 < b := by
  unfold extract_chunk at h
  split at h
  · cases h
  · rename_i hb
    split at h
    · cases h
    · omega

/-- Persisting after a refresh preserves the invariant. -/
theorem post_refresh_inv {s3 : SourceState} {p2 : StoreState}
    (h : SrcInv s3 p2) : SrcInv s3 (save_ingest_state s3 p2) := by
  obtain ⟨hlag, hls, hcur, hpend, hrows⟩ := h
  exact ⟨hlag, hls, hcur, hpend, save_rows_ok hcur hls hrows⟩

/-- Growing the last-seen duration preserves the invariant. -/
theorem dur_inv_gt {p1 : SourceState} {p2 : StoreState} (h : SrcInv p1 p2)
    {d : Int} (hd : d > p1.last_seen_duration_seconds) :
    SrcInv { p1 with last_seen_duration_seconds := d, no_growth_checks := 0 }
      p2 := by
  obtain ⟨hlag, hls, hcur, hpend, hrows⟩ := h
  refine ⟨by simpa using hlag,
    by simpa using le_of_lt (lt_of_le_of_lt hls hd), ?_, ?_, hrows⟩
  · simpa [cursorOf] using le_of_lt (lt_of_le_of_lt hcur hd)
  · intro p hp
    obtain ⟨a, b⟩ := hpend p hp
    exact ⟨by simpa [cursorOf] using a,
      by simpa using le_of_lt (lt_of_le_of_lt b hd)⟩

/-- Either branch of the VOD-switch decision preserves the invariant. -/
theorem pswitch_inv {vod : VodInfo} {s2 : SourceState} {db : StoreState}
    (h2 : SrcInv s2 db) (c : Prop) [Decidable c] :
    SrcInv (if c then switch_to_vod vod s2 db else (s2, db)).1
      (if c then switch_to_vod vod s2 db else (s2, db)).2 := by
  split
  · exact switch_inv h2
  · exact h2

/-- The duration-growth bookkeeping step preserves the invariant. -/
theorem dur_step_inv {q : SourceState × StoreState} (hq : SrcInv q.1 q.2)
    (d : Int) :
    SrcInv (if d > q.1.last_seen_duration_seconds then
        { q.1 with last_seen_duration_seconds := d, no_growth_checks := 0 }
      else if q.1.last_is_live = some false then
        { q.1 with no_growth_checks := q.1.no_growth_checks + 1 }
      else q.1) q.2 := by
  split
  · exact dur_inv_gt hq (by assumption)
  · split
    · exact hq
    · exact hq

/-- The platform refresh preserves the follower invariant. -/
theorem refresh_inv {env : Env} {s : SourceState} {db : StoreState} (f : Bool)
    (h : SrcInv s db) :
    SrcInv (refresh_state f env s db).1 (refresh_state f env s db).2 := by
  simp only [refresh_state]
  split
  · exact h
  · split
    · exact h
    · split
      · refine srcinv_of_fields h ?_ ?_ ?_ ?_ <;> (split <;> rfl)
      · refine post_refresh_inv (dur_step_inv (pswitch_inv ?_ _) _)
        refine srcinv_of_fields h ?_ ?_ ?_ ?_ <;> (split <;> rfl)

/-- The duration bookkeeping never changes the platform id. -/
theorem dur_step_pid (q : SourceState × StoreState) (d : Int) :
    (if d > q.1.last_seen_duration_seconds then
        { q.1 with last_seen_duration_seconds := d, no_growth_checks := 0 }
      else if q.1.last_is_live = some false then
        { q.1 with no_growth_checks := q.1.no_growth_checks + 1 }
      else q.1).vod_platform_id = q.1.vod_platform_id := by
  split
  · rfl
  · split <;> rfl

/-- The duration bookkeeping never changes the cursor. -/
theorem dur_step_cursor (q : SourceState × StoreState) (d : Int) :
    (if d > q.1.last_seen_duration_seconds then
        { q.1 with last_seen_duration_seconds := d, no_growth_checks := 0 }
      else if q.1.last_is_live = some false then
        { q.1 with no_growth_checks := q.1.no_growth_checks + 1 }
      else q.1).ingest_cursor_seconds = q.1.ingest_cursor_seconds := by
  split
  · rfl
  · split <;> rfl

/-- The VOD-switch decision either adopts the new id or leaves the state. -/
theorem pswitch_cases {vod : VodInfo} (s2 : SourceState) (db : StoreState)
    (c : Prop) [Decidable c] :
    ((if c then switch_to_vod vod s2 db else (s2, db)).1.vod_platform_id =
        some vod.id ∧ c) ∨
    ((if c then switch_to_vod vod s2 db else (s2, db)).1 = s2 ∧ ¬c) := by
  split
  · exact Or.inl ⟨switch_pid .., by assumption⟩
  · exact Or.inr ⟨rfl, by assumption⟩

/-- If a refresh leaves the platform id unchanged, it leaves the cursor
unchanged (a VOD switch is the only way a refresh can move the cursor). -/
theorem refresh_pid_cursor (f : Bool) (env : Env) (s : SourceState)
    (db : StoreState) :
    (refresh_state f env s db).1.vod_platform_id = s.vod_platform_id →
    cursorOf (refresh_state f env s db).1 = cursorOf s := by
  simp only [refresh_state]
  split
  · exact fun _ => rfl
  · split
    · exact fun _ => rfl
    · split
      · intro _
        unfold cursorOf
        split <;> rfl
      · intro hpid
        rw [dur_step_pid] at hpid
        unfold cursorOf
        rw [dur_step_cursor]
        split <;> split
        · rename_i hu hsw
          rw [if_pos hu] at hpid
          rw [if_pos hsw, switch_pid] at hpid
          exact absurd hpid.symm hsw
        · rfl
        · rename_i hu hsw
          rw [if_neg hu] at hpid
          rw [if_pos hsw, switch_pid] at hpid
          exact absurd hpid.symm hsw
        · rfl

/-- One `next_chunk` call preserves the follower invariant. -/
theorem next_chunk_inv {env : Env} {s s' : SourceState} {db db' : StoreState}
    {r : Except String (Option AudioChunk)} (h : SrcInv s db)
    (he : next_chunk env s db = (r, s', db')) : SrcInv s' db' := by
  by_cases hfin : s.finished = true
  · simp only [next_chunk, if_pos hfin, Prod.mk.injEq] at he
    obtain ⟨-, h2, h3⟩ := he
    cases h2
    cases h3
    exact h
  · simp only [Bool.not_eq_true] at hfin
    have hq : SrcInv (preState env s db).1 (preState env s db).2 :=
      refresh_inv false (commit_inv h).1
    have hps : refresh_state false env (commit_pending_progress s db).1
        (commit_pending_progress s db).2 = preState env s db := rfl
    simp only [next_chunk, hfin, Bool.false_eq_true, if_false, hps] at he
    split at he
    · split at he <;>
        (simp only [Prod.mk.injEq] at he
         obtain ⟨-, h2, h3⟩ := he
         cases h2
         cases h3)
      · exact hq
      · exact hq
    · split at he
      · split at he
        · simp only [Prod.mk.injEq] at he
          obtain ⟨-, h2, h3⟩ := he
          cases h2
          cases h3
          exact hq
        · rename_i hsafe path hext
          simp only [Prod.mk.injEq] at he
          obtain ⟨-, h2, h3⟩ := he
          cases h2
          cases h3
          obtain ⟨hlag, hls, hcur, hpend, hrows⟩ := hq
          have hlenpos := extract_pos hext
          have hse : safeEndOf (preState env s db).1 ≤
              (preState env s db).1.last_seen_duration_seconds := by
            unfold safeEndOf
            split
            · omega
            · omega
          refine ⟨hlag, hls, hcur, ?_, hrows⟩
          intro p hp
          simp only [Option.mem_def, Option.some.injEq] at hp
          subst hp
          simp only [cursorOf] at hlenpos hse hcur ⊢
          constructor
          · omega
          · omega
      · split at he
        · simp only [Prod.mk.injEq] at he
          obtain ⟨-, h2, h3⟩ := he
          cases h2
          cases h3
          have hf := (commit_inv hq).1
          simp only [finalize]
          split
          · exact hf
          · exact hf
        · simp only [Prod.mk.injEq] at he
          obtain ⟨-, h2, h3⟩ := he
          cases h2
          cases h3
          exact hq

/-- One `next_chunk` call that keeps the platform id never moves the cursor
backwards. -/
theorem next_chunk_mono {env : Env} {s s' : SourceState} {db db' : StoreState}
    {r : Except String (Option AudioChunk)} (h : SrcInv s db)
    (he : next_chunk env s db = (r, s', db'))
    (hpid : s'.vod_platform_id = s.vod_platform_id) :
    cursorOf s ≤ cursorOf s' := by
  by_cases hfin : s.finished = true
  · simp only [next_chunk, if_pos hfin, Prod.mk.injEq] at he
    obtain ⟨-, h2, -⟩ := he
    cases h2
    exact le_refl _
  · simp only [Bool.not_eq_true] at hfin
    obtain ⟨hci, hcm⟩ := commit_inv h
    have hq : SrcInv (preState env s db).1 (preState env s db).2 :=
      refresh_inv false hci
    have hps : refresh_state false env (commit_pending_progress s db).1
        (commit_pending_progress s db).2 = preState env s db := rfl
    have hkey : (preState env s db).1.vod_platform_id = s.vod_platform_id →
        cursorOf s ≤ cursorOf (preState env s db).1 := by
      intro hp
      have := refresh_pid_cursor false env (commit_pending_progress s db).1
        (commit_pending_progress s db).2
      rw [hps, commit_pid] at this
      rw [this hp]
      exact hcm
    simp only [next_chunk, hfin, Bool.false_eq_true, if_false, hps] at he
    split at he
    · split at he <;>
        (simp only [Prod.mk.injEq] at he
         obtain ⟨-, h2, -⟩ := he
         cases h2)
      · exact hkey hpid
      · exact hkey hpid
    · split at he
      · split at he <;>
          (simp only [Prod.mk.injEq] at he
           obtain ⟨-, h2, -⟩ := he
           cases h2)
        · exact hkey hpid
        · exact hkey hpid
      · split at he <;>
          (simp only [Prod.mk.injEq] at he
           obtain ⟨-, h2, -⟩ := he
           cases h2)
        · have hfp : ((finalize (preState env s db).1
              (preState env s db).2).1).vod_platform_id =
              (preState env s db).1.vod_platform_id := commit_pid _ _
          have hstep := hkey (by rw [← hfp]; exact hpid)
          have hfc : cursorOf (finalize (preState env s db).1
              (preState env s db).2).1 =
              cursorOf (commit_pending_progress (preState env s db).1
                (preState env s db).2).1 := rfl
          rw [hfc]
          exact le_trans hstep (commit_inv hq).2
        · exact hkey hpid

/-- The invariant holds along any sequence of `next_chunk` calls. -/
theorem runChunks_inv :
    ∀ (envs : List Env) (s : SourceState) (db : StoreState), SrcInv s db →
      SrcInv (runChunks envs s db).1 (runChunks envs s db).2 := by
  intro envs
  induction envs with
  | nil => exact fun s db h => h
  | cons e rest ih =>
    intro s db h
    exact ih _ _ (next_chunk_inv h rfl)

/-- A freshly constructed follower with nonnegative lag satisfies the
invariant over any well-formed store. -/
theorem init_inv (streamer : String) (cs lag ps fc : Int) (td : String)
    (db : StoreState) (hlag : 0 ≤ lag) (hdb : IngestRowsOK db) :
    SrcInv (sourceInit streamer cs lag ps fc td) db := by
  refine ⟨hlag, le_refl 0, le_refl 0, ?_, hdb⟩
  intro p hp
  simp [sourceInit] at hp

/-- C2 (amended): starting from any state satisfying the follower invariant —
established by construction for nonnegative lag — every persisted
`LiveIngestState` row satisfies `last_ingested_seconds ≤
last_seen_duration_seconds` across any sequence of `next_chunk` calls, and
`ingest_cursor_seconds` is non-decreasing at every call that does not switch
to a different latest VOD (a switch re-initializes the cursor from the new
VOD's persisted state, or zero). -/
theorem claim_C2 :
    (∀ (streamer : String) (cs lag ps fc : Int) (td : String)
       (db : StoreState), 0 ≤ lag → IngestRowsOK db →
      SrcInv (sourceInit streamer cs lag ps fc td) db) ∧
    (∀ (envs : List Env) (s : SourceState) (db : StoreState), SrcInv s db →
      SrcInv (runChunks envs s db).1 (runChunks envs s db).2 ∧
      IngestRowsOK (runChunks envs s db).2) ∧
    (∀ (env : Env) (s s' : SourceState) (db db' : StoreState)
       (r : Except String (Option AudioChunk)), SrcInv s db →
      next_chunk env s db = (r, s', db') →
      s'.vod_platform_id = s.vod_platform_id →
      cursorOf s ≤ cursorOf s') :=
  ⟨init_inv,
   fun envs s db h =>
     ⟨runChunks_inv envs s db h, (runChunks_inv envs s db h).2.2.2.2⟩,
   fun _ _ _ _ _ _ h he hpid => next_chunk_mono h he hpid⟩

/-- C2 witness: the amended theorem on the S1 run — the invariant holds at
construction and after the S2 poll sequence, and the second call (same VOD)
does not decrease the cursor. -/
theorem claim_C2_witness :
    SrcInv (sourceInit "alice" 60 120 15 3 "tmp") db0 ∧
    IngestRowsOK (runChunks envsS2 p1.1 p1.2).2 ∧
    cursorOf s1c1.2.1 ≤ cursorOf s1c2.2.1 :=
  ⟨claim_C2.1 "alice" 60 120 15 3 "tmp" db0 (by decide) (by decide),
   (claim_C2.2.1 envsS2 p1.1 p1.2 (by decide)).2,
   claim_C2.2.2 (envLive 32) s1c1.2.1 s1c2.2.1 s1c1.2.2 s1c2.2.2 s1c2.1
     (by decide) rfl (by decide)⟩

/-- A successful `find?` is stable under appending rows on the right. -/
theorem find_some_append {α : Type} (p : α → Bool) {l₁ : List α} (l₂ : List α)
    {r : α} (h : l₁.find? p = some r) : (l₁ ++ l₂).find? p = some r := by
  simp [List.find?_append, h]

/-- `store_fingerprints` only appends rows to the table. -/
theorem storeFp_rows_append :
    ∀ (ts : List ℚ) (db : FpDb) (vid : Int),
      ∃ ext, (store_fingerprints db vid ts).2.rows = db.rows ++ ext := by
  intro ts
  induction ts with
  | nil => intro db vid; exact ⟨[], by simp [store_fingerprints]⟩
  | cons t rest ih =>
    intro db vid
    cases hf : findFp db.rows vid t with
    | some r =>
      obtain ⟨ext, hext⟩ := ih db vid
      exact ⟨ext, by simp only [store_fingerprints, hf]; exact hext⟩
    | none =>
      obtain ⟨ext, hext⟩ := ih ⟨db.rows ++ [⟨db.nextId, vid, t⟩], db.nextId + 1⟩ vid
      refine ⟨⟨db.nextId, vid, t⟩ :: ext, ?_⟩
      simp only [store_fingerprints, hf]
      simpa using hext

/-- A row found before a `store_fingerprints` call is still the first match
afterwards. -/
theorem findFp_preserved {db : FpDb} {vid : Int} {t : ℚ} {r : FpRow}
    (ts : List ℚ) (h : findFp db.rows vid t = some r) :
    findFp (store_fingerprints db vid ts).2.rows vid t = some r := by
  obtain ⟨ext, hext⟩ := storeFp_rows_append ts db vid
  unfold findFp at h ⊢
  rw [hext]
  exact find_some_append _ _ h

/-- When a `(video_id, timestamp)` pair is absent, the row just inserted for
it becomes the first match. -/
theorem findFp_append_self {rows : List FpRow} {vid : Int} {t : ℚ}
    (h : findFp rows vid t = none) (n : Int) :
    findFp (rows ++ [⟨n, vid, t⟩]) vid t = some ⟨n, vid, t⟩ := by
  unfold findFp at h ⊢
  simp [List.find?_append, h]

/-- The second identical `store_fingerprints` call returns the same id list
and leaves the table unchanged. -/
theorem storeFp_idem :
    ∀ (ts : List ℚ) (db : FpDb) (vid : Int),
      store_fingerprints (store_fingerprints db vid ts).2 vid ts =
        store_fingerprints db vid ts := by
  intro ts
  induction ts with
  | nil => intro db vid; rfl
  | cons t rest ih =>
    intro db vid
    cases hf : findFp db.rows vid t with
    | some r =>
      have h2 : findFp (store_fingerprints db vid rest).2.rows vid t = some r :=
        findFp_preserved rest hf
      simp only [store_fingerprints, hf, h2, ih]
    | none =>
      have h1 : findFp (db.rows ++ [⟨db.nextId, vid, t⟩]) vid t =
          some ⟨db.nextId, vid, t⟩ := findFp_append_self hf db.nextId
      have h2 : findFp
          (store_fingerprints ⟨db.rows ++ [⟨db.nextId, vid, t⟩], db.nextId + 1⟩
            vid rest).2.rows vid t = some ⟨db.nextId, vid, t⟩ :=
        @findFp_preserved ⟨db.rows ++ [⟨db.nextId, vid, t⟩], db.nextId + 1⟩
          vid t ⟨db.nextId, vid, t⟩ rest h1
      simp only [store_fingerprints, hf, h2, ih]

/-- Positionally, a timestamp whose pair already has a row gets that row's id
in the returned list. -/
theorem storeFp_get :
    ∀ (ts : List ℚ) (db : FpDb) (vid : Int) (i : Nat) (t : ℚ) (r : FpRow),
      ts[i]? = some t → findFp db.rows vid t = some r →
      (store_fingerprints db vid ts).1[i]? = some r.id := by
  intro ts
  induction ts with
  | nil => intro db vid i t r hts _; simp at hts
  | cons t0 rest ih =>
    intro db vid i t r hts hf
    cases i with
    | zero =>
      simp only [List.getElem?_cons_zero, Option.some.injEq] at hts
      subst hts
      simp only [store_fingerprints, hf, List.getElem?_cons_zero]
    | succ n =>
      simp only [List.getElem?_cons_succ] at hts
      cases hf0 : findFp db.rows vid t0 with
      | some r0 =>
        simp only [store_fingerprints, hf0, List.getElem?_cons_succ]
        exact ih db vid n t r hts hf
      | none =>
        simp only [store_fingerprints, hf0, List.getElem?_cons_succ]
        have hf' : findFp (db.rows ++ [⟨db.nextId, vid, t0⟩]) vid t = some r := by
          unfold findFp at hf ⊢
          exact find_some_append _ _ hf
        exact ih ⟨db.rows ++ [⟨db.nextId, vid, t0⟩], db.nextId + 1⟩ vid n t r hts hf'

/-- With no resolved rows every visit misses the id dict, so no votes are
ever cast. -/
theorem runVotes_nil_rows (steps : List (Int × ℚ))
    (votes : List ((Int × Int) × Nat)) : runVotes [] steps votes = votes := by
  induction steps with
  | nil => rfl
  | cons st rest ih => exact ih

/-- Evaluation of the scenario-S4 vote table: bucket `(100, 10)` wins with
two votes. -/
theorem mostCommonS4_eval :
    mostCommon1 (alignVotes tableS3 [[1, 3], [2, 3]] [0, 1]) =
      some ((100, 10), 2) := by
  norm_num +decide [alignVotes, voteSteps, get_fingerprint_rows, runVotes,
    dictLookup, bumpVote, pythonRound, mostCommon1, tableS3]

/-- C4: for every non-empty, shape-consistent alignment input whose vote
table has best bucket `(k, v)`: `align` rejects, citing the violated
threshold, when `v < min_vote_count` or `v / Q < min_vote_ratio`, and
otherwise accepts with `score = v / Q`; concretely, scenario S4 (neighbors
`[[1,3],[2,3]]`, query `[0,1]`, thresholds count ≥ 5, ratio ≥ 0.9) is
rejected. -/
theorem claim_C4 :
    (∀ (cfg : AlignmentConfig) (table : List FpRow) (ns : List (List Int))
       (qs : List ℚ) (k : Int × Int) (v : Nat),
      npSize2 ns ≠ 0 → qs ≠ [] → ns.length = qs.length →
      mostCommon1 (alignVotes table ns qs) = some (k, v) →
      (((v : Int) < cfg.min_vote_count →
        align cfg table ns qs =
          { found := false,
            reason := some (countMsg v cfg.min_vote_count) }) ∧
       (¬ (v : Int) < cfg.min_vote_count →
        (v : ℚ) / (qs.length : ℚ) < cfg.min_vote_ratio →
        align cfg table ns qs =
          { found := false,
            reason := some (ratioMsg ((v : ℚ) / (qs.length : ℚ))
              cfg.min_vote_ratio) }) ∧
       (¬ (v : Int) < cfg.min_vote_count →
        ¬ (v : ℚ) / (qs.length : ℚ) < cfg.min_vote_ratio →
        align cfg table ns qs =
          { found := true, video_id := some k.1,
            timestamp_seconds := some k.2,
            score := some ((v : ℚ) / (qs.length : ℚ)),
            reason := some (acceptMsg v ((v : ℚ) / (qs.length : ℚ))) }))) ∧
    align { min_vote_count := 5, min_vote_ratio := 9 / 10 } tableS3
        [[1, 3], [2, 3]] [0, 1] =
      { found := false,
        reason := some "Best candidate vote count 2 is below min_vote_count 5" } := by
  constructor
  · intro cfg table ns qs k v hns hqs hlen hmc
    have hq0 : ¬ qs.length = 0 := fun h => hqs (List.length_eq_zero.mp h)
    have hlen' : ¬ ns.length ≠ qs.length := not_not_intro hlen
    rw [alignVotes] at hmc
    have hrows : ¬ get_fingerprint_rows table ns.flatten = [] := by
      intro hr
      rw [hr, runVotes_nil_rows] at hmc
      cases hmc
    have halign : align cfg table ns qs =
        (if (v : Int) < cfg.min_vote_count then
          { found := false,
            reason := some (countMsg v cfg.min_vote_count) }
        else if (v : ℚ) / (qs.length : ℚ) < cfg.min_vote_ratio then
          { found := false,
            reason := some (ratioMsg ((v : ℚ) / (qs.length : ℚ))
              cfg.min_vote_ratio) }
        else
          { found := true, video_id := some k.1, timestamp_seconds := some k.2,
            score := some ((v : ℚ) / (qs.length : ℚ)),
            reason := some (acceptMsg v ((v : ℚ) / (qs.length : ℚ))) }) := by
      simp only [align, if_neg hns, if_neg hq0, if_neg hlen', if_neg hrows, hmc]
    refine ⟨fun hc => ?_, fun hc hr => ?_, fun hc hr => ?_⟩
    · rw [halign, if_pos hc]
    · rw [halign, if_neg hc, if_pos hr]
    · rw [halign, if_neg hc, if_neg hr]
  · norm_num +decide [align, voteSteps, get_fingerprint_rows, runVotes,
      dictLookup, bumpVote, pythonRound, npSize2, tableS3, mostCommon1, fmt3,
      countMsg, ratioMsg, acceptMsg]

/-- C4 witness: the general part of the theorem instantiated at scenario S4,
whose best bucket `((100, 10), 2)` fails the count threshold 5. -/
theorem claim_C4_witness :
    align { min_vote_count := 5, min_vote_ratio := 9 / 10 } tableS3
        [[1, 3], [2, 3]] [0, 1] =
      { found := false,
        reason := some "Best candidate vote count 2 is below min_vote_count 5" } :=
  (claim_C4.1 { min_vote_count := 5, min_vote_ratio := 9 / 10 } tableS3
      [[1, 3], [2, 3]] [0, 1] (100, 10) 2 (by decide) (by decide) (by decide)
      mostCommonS4_eval).1 (by decide)

/-- C5: `store_fingerprints` is idempotent — a second call with the same
video id and timestamp list returns exactly the same id list (in input
order) and leaves the table unchanged; and whenever a `(video_id, timestamp)`
pair is already present, the id returned at that position is the existing
row's id. -/
theorem claim_C5 :
    ∀ (db : FpDb) (vid : Int) (ts : List ℚ),
      store_fingerprints (store_fingerprints db vid ts).2 vid ts =
        store_fingerprints db vid ts ∧
      (∀ (i : Nat) (t : ℚ) (r : FpRow), ts[i]? = some t →
        findFp db.rows vid t = some r →
        (store_fingerprints db vid ts).1[i]? = some r.id) :=
  fun db vid ts =>
    ⟨storeFp_idem ts db vid,
     fun i t r h1 h2 => storeFp_get ts db vid i t r h1 h2⟩

/-- C5 witness: the theorem at a one-row table — the second call repeats the
first, and the pre-existing pair `(9, 2)` resolves to the existing id 5. -/
theorem claim_C5_witness :
    (store_fingerprints (store_fingerprints ⟨[⟨5, 9, 2⟩], 6⟩ 9 [2, 3]).2 9 [2, 3] =
      store_fingerprints ⟨[⟨5, 9, 2⟩], 6⟩ 9 [2, 3]) ∧
    (store_fingerprints ⟨[⟨5, 9, 2⟩], 6⟩ 9 [2, 3]).1[0]? = some 5 :=
  ⟨(claim_C5 ⟨[⟨5, 9, 2⟩], 6⟩ 9 [2, 3]).1,
   (claim_C5 ⟨[⟨5, 9, 2⟩], 6⟩ 9 [2, 3]).2 0 2 ⟨5, 9, 2⟩ (by decide) (by decide)⟩

/-- C6 counterexample: with both files present but two vector rows against a
single id, `load_vectors_and_ids` returns the misaligned pair unchanged — it
reports no mismatch. -/
theorem claim_C6_counterexample :
    load_vectors_and_ids ⟨some [[1], [2]], some [7]⟩ = ([[1], [2]], [7]) ∧
    ([[1], [2]] : List (List ℚ)).length ≠ ([7] : List Int).length :=
  ⟨rfl, by decide⟩

/-- C6 (amended): `load_vectors_and_ids` performs no consistency check — when
both files exist it returns the stored pair unchanged even if the lengths
differ; the mismatch is surfaced downstream by `VectorMatcher.match`, which
errors exactly on misaligned non-empty arrays. -/
theorem claim_C6 :
    ∀ (fs : VectorFiles) (v : List (List ℚ)) (ids : List Int),
      fs.vector_file = some v → fs.id_file = some ids →
      load_vectors_and_ids fs = (v, ids) ∧
      (∀ (top_k : Int) (sim : Nat → Nat → ℚ) (q : List (List ℚ)),
        npSize2Q q ≠ 0 → npSize2Q v ≠ 0 → ids ≠ [] →
        v.length ≠ ids.length →
        VectorMatcher.match top_k sim q v ids =
          .error "Vector and fingerprint ID arrays are misaligned") := by
  intro fs v ids hv hi
  refine ⟨by simp [load_vectors_and_ids, hv, hi], ?_⟩
  intro top_k sim q hq hv0 hi0 hlen
  have hi0' : ids.length ≠ 0 := fun h => hi0 (List.length_eq_zero.mp h)
  simp only [VectorMatcher.match, if_neg hq]
  rw [if_neg (by push_neg; exact ⟨hv0, hi0'⟩), if_pos hlen]

/-- C6 witness: the amended theorem at the concrete misaligned pair. -/
theorem claim_C6_witness :
    load_vectors_and_ids ⟨some [[1], [2]], some [7]⟩ = ([[1], [2]], [7]) ∧
    VectorMatcher.match 10 (fun _ _ => 0) [[0]] [[1], [2]] [7] =
      .error "Vector and fingerprint ID arrays are misaligned" :=
  ⟨(claim_C6 ⟨some [[1], [2]], some [7]⟩ [[1], [2]] [7] rfl rfl).1,
   (claim_C6 ⟨some [[1], [2]], some [7]⟩ [[1], [2]] [7] rfl rfl).2
     10 (fun _ _ => 0) [[0]] (by decide) (by decide) (by decide) (by decide)⟩

/-- C10: `VectorMatcher.match` validates the vector/id parallelism that load
does not — with non-empty query and non-empty db arrays it raises exactly
when `len(db_vectors) ≠ len(db_ids)`, and with an empty query or an empty db
side it returns empty arrays instead of raising. -/
theorem claim_C10 :
    ∀ (top_k : Int) (sim : Nat → Nat → ℚ) (q dv : List (List ℚ))
      (di : List Int),
      (npSize2Q q ≠ 0 → npSize2Q dv ≠ 0 → di ≠ [] →
        ((VectorMatcher.match top_k sim q dv di =
            .error "Vector and fingerprint ID arrays are misaligned") ↔
          dv.length ≠ di.length)) ∧
      (npSize2Q q = 0 →
        VectorMatcher.match top_k sim q dv di = .ok ([], [])) ∧
      (npSize2Q dv = 0 ∨ di = [] →
        VectorMatcher.match top_k sim q dv di = .ok ([], [])) := by
  intro top_k sim q dv di
  refine ⟨?_, ?_, ?_⟩
  · intro hq hv hi
    have hi' : di.length ≠ 0 := fun h => hi (List.length_eq_zero.mp h)
    constructor
    · intro herr
      by_contra hlen
      simp only [VectorMatcher.match, if_neg hq] at herr
      rw [if_neg (by push_neg; exact ⟨hv, hi'⟩), if_neg (not_not_intro hlen)] at herr
      split at herr <;> simp at herr
    · intro hlen
      simp only [VectorMatcher.match, if_neg hq]
      rw [if_neg (by push_neg; exact ⟨hv, hi'⟩), if_pos hlen]
  · intro hq
    simp [VectorMatcher.match, hq]
  · intro h
    rcases Decidable.em (npSize2Q q = 0) with hq | hq
    · simp [VectorMatcher.match, hq]
    · have h' : npSize2Q dv = 0 ∨ di.length = 0 := by
        rcases h with h | h
        · exact Or.inl h
        · exact Or.inr (by simp [h])
      simp only [VectorMatcher.match, if_neg hq]
      rw [if_pos h']

/-- C10 witness: the error case of the theorem at a concrete misaligned
store, and the empty-query case. -/
theorem claim_C10_witness :
    ((VectorMatcher.match 10 (fun _ _ => 0) [[0]] [[1], [2]] [7] =
        .error "Vector and fingerprint ID arrays are misaligned") ↔
      ([[1], [2]] : List (List ℚ)).length ≠ ([7] : List Int).length) ∧
    VectorMatcher.match 10 (fun _ _ => 0) [] [[1], [2]] [7] = .ok ([], []) :=
  ⟨(claim_C10 10 (fun _ _ => 0) [[0]] [[1], [2]] [7]).1
      (by decide) (by decide) (by decide),
   (claim_C10 10 (fun _ _ => 0) [] [[1], [2]] [7]).2.1 (by decide)⟩

/-- C8: while a worker thread is alive, `start` with the same (normalized)
streamer returns the current status and leaves the supervisor unchanged,
`start` with a different streamer raises `MonitorConflictError` (again
without spawning anything), and `can_search()` is true iff the supervisor
state is `"idle"`. -/
theorem claim_C8 :
    ∀ (m : ManagerState) (s now_iso : String),
      (m.thread_alive = true → pyStripLower s ≠ "" →
        ((m.status.streamer = some (pyStripLower s) →
          managerStart m s now_iso = (.ok m.status, m)) ∧
         (m.status.streamer ≠ some (pyStripLower s) →
          managerStart m s now_iso =
            (.error (.monitorConflict ("Monitor already running for " ++
              (match m.status.streamer with
               | some x => x
               | none => "None") ++ ". Stop first to switch.")), m)))) ∧
      (can_search m = true ↔ m.status.state = "idle") := by
  intro m s now_iso
  constructor
  · intro halive hne
    constructor
    · intro hsame
      simp only [managerStart, if_neg hne, halive, if_pos hsame]
      simp
    · intro hdiff
      simp only [managerStart, if_neg hne, halive, if_neg hdiff]
      simp
  · simp [can_search, beq_iff_eq]

/-- C8 witness: the theorem at a running supervisor, for both the idempotent
same-streamer call and the conflicting different-streamer call. -/
theorem claim_C8_witness :
    (managerStart ⟨{ state := "ingesting", streamer := some "alice" }, true, 120⟩
        " Alice" "t0" =
      (.ok { state := "ingesting", streamer := some "alice" },
       ⟨{ state := "ingesting", streamer := some "alice" }, true, 120⟩)) ∧
    (managerStart ⟨{ state := "ingesting", streamer := some "alice" }, true, 120⟩
        "bob" "t0" =
      (.error (.monitorConflict
        "Monitor already running for alice. Stop first to switch."),
       ⟨{ state := "ingesting", streamer := some "alice" }, true, 120⟩)) :=
  ⟨((claim_C8 ⟨{ state := "ingesting", streamer := some "alice" }, true, 120⟩
      " Alice" "t0").1 (by decide) (by decide)).1 (by decide),
   ((claim_C8 ⟨{ state := "ingesting", streamer := some "alice" }, true, 120⟩
      "bob" "t0").1 (by decide) (by decide)).2 (by decide)⟩

/-! ## Scale invariance of the alignment vote (C9) -/

theorem repList_succ_r (c : Nat) (l : List α) :
    repList (c + 1) l = repList c l ++ l := by
  induction c with
  | zero => simp [repList]
  | succ n ih =>
    show l ++ repList (n + 1) l = (l ++ repList n l) ++ l
    rw [ih, List.append_assoc]

theorem repList_nil (c : Nat) : repList c ([] : List α) = [] := by
  induction c with
  | zero => rfl
  | succ n ih =>
    show ([] : List α) ++ repList n ([] : List α) = []
    rw [ih]
    rfl

theorem repList_eq_nil {c : Nat} (hc : 1 ≤ c) {l : List α} :
    repList c l = [] ↔ l = [] := by
  constructor
  · intro h
    cases c with
    | zero => exact absurd hc (by omega)
    | succ n => exact (List.append_eq_nil.mp h).1
  · intro h
    subst h
    exact repList_nil c

theorem repList_flatten (c : Nat) (l : List (List α)) :
    (repList c l).flatten = repList c l.flatten := by
  induction c with
  | zero => rfl
  | succ n ih =>
    show (l ++ repList n l).flatten = l.flatten ++ repList n l.flatten
    rw [List.flatten_append, ih]

theorem flatMap_repList (c : Nat) (l : List α) (f : α → List β) :
    (repList c l).flatMap f = repList c (l.flatMap f) := by
  induction c with
  | zero => rfl
  | succ n ih =>
    show (l ++ repList n l).flatMap f = l.flatMap f ++ repList n (l.flatMap f)
    rw [List.flatMap_append, ih]

theorem zip_repList (c : Nat) (ns : List α) (qs : List β)
    (h : ns.length = qs.length) :
    (repList c ns).zip (repList c qs) = repList c (ns.zip qs) := by
  induction c with
  | zero => rfl
  | succ n ih =>
    show (ns ++ repList n ns).zip (qs ++ repList n qs) =
      ns.zip qs ++ repList n (ns.zip qs)
    rw [List.zip_append h, ih]

theorem mem_repList_succ (n : Nat) (l : List α) (a : α) :
    a ∈ repList (n + 1) l ↔ a ∈ l := by
  induction n with
  | zero =>
    show a ∈ l ++ [] ↔ a ∈ l
    rw [List.append_nil]
  | succ m ih =>
    show a ∈ l ++ repList (m + 1) l ↔ a ∈ l
    rw [List.mem_append, ih]
    exact or_self_iff

theorem contains_repList_succ (n : Nat) (l : List Int) (a : Int) :
    (repList (n + 1) l).contains a = l.contains a := by
  rw [Bool.eq_iff_iff]
  show List.elem a (repList (n + 1) l) = true ↔ List.elem a l = true
  rw [List.elem_iff, List.elem_iff]
  exact mem_repList_succ n l a

theorem rows_repList (n : Nat) (table : List FpRow) (ns : List (List Int)) :
    get_fingerprint_rows table (repList (n + 1) ns).flatten =
      get_fingerprint_rows table ns.flatten := by
  rw [repList_flatten]
  unfold get_fingerprint_rows
  by_cases h : ns.flatten = []
  · have h1 : repList (n + 1) ns.flatten = [] := by
      rw [h]
      exact repList_nil (n + 1)
    rw [if_pos h1, if_pos h]
  · have h1 : ¬ repList (n + 1) ns.flatten = [] :=
      fun hh => h ((repList_eq_nil (by omega)).mp hh)
    rw [if_neg h1, if_neg h]
    exact List.filter_congr (fun r _ => contains_repList_succ n ns.flatten r.id)

theorem npSize2_repList (c : Nat) (ns : List (List Int)) :
    npSize2 (repList c ns) = c * npSize2 ns := by
  induction c with
  | zero => simp [repList, npSize2]
  | succ n ih =>
    show npSize2 (ns ++ repList n ns) = (n + 1) * npSize2 ns
    unfold npSize2 at ih ⊢
    rw [List.map_append, List.sum_append, ih]
    ring

theorem length_repList (c : Nat) (l : List α) :
    (repList c l).length = c * l.length := by
  induction c with
  | zero => simp [repList]
  | succ n ih =>
    show (l ++ repList n l).length = (n + 1) * l.length
    rw [List.length_append, ih]
    ring

theorem voteSteps_repList (c : Nat) (ns : List (List Int)) (qs : List ℚ)
    (h : ns.length = qs.length) :
    voteSteps (repList c ns) (repList c qs) = repList c (voteSteps ns qs) := by
  unfold voteSteps
  rw [zip_repList c ns qs h, flatMap_repList]

theorem runVotes_append (rows : List FpRow) (xs ys : List (Int × ℚ)) :
    ∀ acc, runVotes rows (xs ++ ys) acc = runVotes rows ys (runVotes rows xs acc) := by
  induction xs with
  | nil => intro acc; rfl
  | cons st rest ih =>
    intro acc
    obtain ⟨fpId, q⟩ := st
    cases hdl : dictLookup rows fpId with
    | none =>
      simp only [List.cons_append, runVotes, hdl]
      exact ih acc
    | some r =>
      simp only [List.cons_append, runVotes, hdl]
      exact ih _

theorem voteKeys_bump (v : List ((Int × Int) × Nat)) (k : Int × Int) :
    voteKeys (bumpVote v k) =
      if k ∈ voteKeys v then voteKeys v else voteKeys v ++ [k] := by
  induction v with
  | nil => simp [bumpVote, voteKeys]
  | cons p rest ih =>
    obtain ⟨pk, pc⟩ := p
    by_cases h : pk = k
    · subst h
      simp [bumpVote, voteKeys]
    · have hbv : bumpVote ((pk, pc) :: rest) k = (pk, pc) :: bumpVote rest k := by
        simp [bumpVote, h]
      rw [hbv]
      have hkeys : voteKeys ((pk, pc) :: bumpVote rest k) =
          pk :: voteKeys (bumpVote rest k) := rfl
      have hkeys2 : voteKeys ((pk, pc) :: rest) = pk :: voteKeys rest := rfl
      rw [hkeys, hkeys2, ih]
      by_cases hm : k ∈ voteKeys rest
      · rw [if_pos hm, if_pos (List.mem_cons_of_mem pk hm)]
      · rw [if_neg hm, if_neg (by
          intro hcontra
          rcases List.mem_cons.mp hcontra with he | hm2
          · exact h he.symm
          · exact hm hm2)]
        rfl

theorem mem_voteKeys_bump_self (v : List ((Int × Int) × Nat)) (k : Int × Int) :
    k ∈ voteKeys (bumpVote v k) := by
  rw [voteKeys_bump]
  split
  · assumption
  · exact List.mem_append_right _ (List.mem_singleton_self k)

theorem mem_voteKeys_bump_mono {v : List ((Int × Int) × Nat)} {x : Int × Int}
    (k : Int × Int) (h : x ∈ voteKeys v) : x ∈ voteKeys (bumpVote v k) := by
  rw [voteKeys_bump]
  split
  · exact h
  · exact List.mem_append_left _ h

theorem mem_voteKeys_runVotes (rows : List FpRow) (steps : List (Int × ℚ)) :
    ∀ (acc : List ((Int × Int) × Nat)) (x : Int × Int),
      x ∈ voteKeys acc → x ∈ voteKeys (runVotes rows steps acc) := by
  induction steps with
  | nil => intro acc x h; exact h
  | cons st rest ih =>
    intro acc x h
    obtain ⟨f, q⟩ := st
    cases hdl : dictLookup rows f with
    | none =>
      simp only [runVotes, hdl]
      exact ih acc x h
    | some r =>
      simp only [runVotes, hdl]
      exact ih _ x (mem_voteKeys_bump_mono _ h)

theorem stepKeys_mem_runVotes (rows : List FpRow) (steps : List (Int × ℚ)) :
    ∀ (acc : List ((Int × Int) × Nat)) (k : Int × Int),
      k ∈ steps.filterMap (stepKey rows) →
      k ∈ voteKeys (runVotes rows steps acc) := by
  induction steps with
  | nil => intro acc k h; simp at h
  | cons st rest ih =>
    intro acc k h
    obtain ⟨f, q⟩ := st
    cases hdl : dictLookup rows f with
    | none =>
      have hsk : stepKey rows (f, q) = none := by simp [stepKey, hdl]
      rw [List.filterMap_cons_none hsk] at h
      simp only [runVotes, hdl]
      exact ih acc k h
    | some r =>
      have hsk : stepKey rows (f, q) =
          some (r.video_id, pythonRound (r.timestamp_seconds - q)) := by
        simp [stepKey, hdl]
      rw [List.filterMap_cons_some hsk] at h
      simp only [runVotes, hdl]
      rcases List.mem_cons.mp h with he | hm
      · subst he
        exact mem_voteKeys_runVotes rows rest _ _ (mem_voteKeys_bump_self acc _)
      · exact ih _ k hm

theorem map_bump_zero (k0 : Int × Int) :
    ∀ (v : List ((Int × Int) × Nat)), k0 ∉ voteKeys v →
      v.map (fun p => (p.1, p.2 + if p.1 = k0 then 1 else 0)) = v := by
  intro v
  induction v with
  | nil => intro _; rfl
  | cons p rest ih =>
    intro h
    have hsplit : k0 ∉ (p.1 :: voteKeys rest) := h
    have h1 : ¬ p.1 = k0 := by
      intro hh
      exact hsplit (by rw [hh]; exact List.mem_cons_self _ _)
    have h2 : k0 ∉ voteKeys rest := fun hm => hsplit (List.mem_cons_of_mem _ hm)
    simp only [List.map_cons, if_neg h1, Nat.add_zero, ih h2, Prod.mk.eta]

theorem bump_eq_map (k0 : Int × Int) :
    ∀ (v : List ((Int × Int) × Nat)), (voteKeys v).Nodup → k0 ∈ voteKeys v →
      bumpVote v k0 = v.map (fun p => (p.1, p.2 + if p.1 = k0 then 1 else 0)) := by
  intro v
  induction v with
  | nil => intro _ hmem; cases hmem
  | cons p rest ih =>
    intro hnd hmem
    obtain ⟨pk, pc⟩ := p
    have hnd' : (pk :: voteKeys rest).Nodup := hnd
    have hmem' : k0 ∈ (pk :: voteKeys rest) := hmem
    by_cases h : pk = k0
    · subst h
      have hnotin : pk ∉ voteKeys rest := (List.nodup_cons.mp hnd').1
      have hb : bumpVote ((pk, pc) :: rest) pk = (pk, pc + 1) :: rest := by
        simp [bumpVote]
      rw [hb, List.map_cons]
      simp [map_bump_zero pk rest hnotin]
    · have hm2 : k0 ∈ voteKeys rest := by
        rcases List.mem_cons.mp hmem' with he | hm
        · exact absurd he.symm h
        · exact hm
      have hb : bumpVote ((pk, pc) :: rest) k0 = (pk, pc) :: bumpVote rest k0 := by
        simp [bumpVote, h]
      rw [hb, List.map_cons]
      have hnd2 : (voteKeys rest).Nodup := (List.nodup_cons.mp hnd').2
      rw [ih hnd2 hm2]
      simp [h]

theorem countKey_cons (a : Int × Int) (b : Nat)
    (rest : List ((Int × Int) × Nat)) (k : Int × Int) :
    countKey ((a, b) :: rest) k = if a = k then b else countKey rest k := by
  unfold countKey
  by_cases h : a = k
  · rw [if_pos h, List.find?_cons_of_pos _ (by simp [h])]
    rfl
  · rw [if_neg h, List.find?_cons_of_neg _ (by simp [h])]

theorem countKey_bump (k0 k : Int × Int) :
    ∀ v, countKey (bumpVote v k0) k = countKey v k + if k = k0 then 1 else 0 := by
  intro v
  induction v with
  | nil =>
    show countKey [(k0, 1)] k = countKey [] k + if k = k0 then 1 else 0
    rw [countKey_cons]
    by_cases h : k = k0
    · rw [if_pos h.symm, if_pos h]
      rfl
    · rw [if_neg (fun hh => h hh.symm), if_neg h]
      rfl
  | cons p rest ih =>
    obtain ⟨pk, pc⟩ := p
    by_cases hh : pk = k0
    · subst hh
      have hb : bumpVote ((pk, pc) :: rest) pk = (pk, pc + 1) :: rest := by
        simp [bumpVote]
      rw [hb, countKey_cons, countKey_cons]
      by_cases hk : pk = k
      · rw [if_pos hk, if_pos hk, if_pos hk.symm]
      · rw [if_neg hk, if_neg hk, if_neg (fun h2 => hk h2.symm)]
        rfl
    · have hb : bumpVote ((pk, pc) :: rest) k0 = (pk, pc) :: bumpVote rest k0 := by
        simp [bumpVote, hh]
      rw [hb, countKey_cons, countKey_cons]
      by_cases hk : pk = k
      · rw [if_pos hk, if_pos hk, if_neg (fun h2 => hh (hk.trans h2))]
        rfl
      · rw [if_neg hk, if_neg hk, ih]

theorem countKey_runVotes (rows : List FpRow) (steps : List (Int × ℚ)) :
    ∀ (acc : List ((Int × Int) × Nat)) (k : Int × Int),
      countKey (runVotes rows steps acc) k = countKey acc k + hitCount rows steps k := by
  induction steps with
  | nil =>
    intro acc k
    show countKey acc k = countKey acc k + hitCount rows [] k
    rfl
  | cons st rest ih =>
    intro acc k
    obtain ⟨f, q⟩ := st
    cases hdl : dictLookup rows f with
    | none =>
      have hsk : stepKey rows (f, q) = none := by simp [stepKey, hdl]
      simp only [runVotes, hdl]
      rw [ih]
      have hhit : hitCount rows ((f, q) :: rest) k = hitCount rows rest k := by
        unfold hitCount
        rw [List.filterMap_cons_none hsk]
      rw [hhit]
    | some r =>
      have hsk : stepKey rows (f, q) =
          some (r.video_id, pythonRound (r.timestamp_seconds - q)) := by
        simp [stepKey, hdl]
      simp only [runVotes, hdl]
      rw [ih, countKey_bump]
      have hhit : hitCount rows ((f, q) :: rest) k =
          hitCount rows rest k +
            if k = (r.video_id, pythonRound (r.timestamp_seconds - q)) then 1 else 0 := by
        unfold hitCount
        rw [List.filterMap_cons_some hsk, List.count_cons]
        by_cases hk : k = (r.video_id, pythonRound (r.timestamp_seconds - q))
        · simp [hk]
        · simp [hk, Ne.symm hk]
      rw [hhit]
      omega

theorem nodup_voteKeys_bump {v : List ((Int × Int) × Nat)} (k : Int × Int)
    (h : (voteKeys v).Nodup) : (voteKeys (bumpVote v k)).Nodup := by
  rw [voteKeys_bump]
  split
  · exact h
  · rename_i hm
    rw [List.nodup_append]
    refine ⟨h, List.nodup_singleton k, ?_⟩
    intro x hx hx2
    rw [List.mem_singleton.mp hx2] at hx
    exact hm hx

theorem nodup_voteKeys_runVotes (rows : List FpRow) (steps : List (Int × ℚ)) :
    ∀ acc, (voteKeys acc).Nodup → (voteKeys (runVotes rows steps acc)).Nodup := by
  induction steps with
  | nil => intro acc h; exact h
  | cons st rest ih =>
    intro acc h
    obtain ⟨f, q⟩ := st
    cases hdl : dictLookup rows f with
    | none =>
      simp only [runVotes, hdl]
      exact ih acc h
    | some r =>
      simp only [runVotes, hdl]
      exact ih _ (nodup_voteKeys_bump _ h)

theorem countKey_of_mem {k : Int × Int} {n : Nat} :
    ∀ {v : List ((Int × Int) × Nat)}, (voteKeys v).Nodup → (k, n) ∈ v →
      countKey v k = n := by
  intro v
  induction v with
  | nil => intro _ hm; cases hm
  | cons p rest ih =>
    intro hnd hm
    obtain ⟨pk, pc⟩ := p
    rw [countKey_cons]
    have hnd' : (pk :: voteKeys rest).Nodup := hnd
    rcases List.mem_cons.mp hm with he | hm'
    · cases he
      rw [if_pos rfl]
    · have hk : k ∈ voteKeys rest := List.mem_map_of_mem Prod.fst hm'
      have hne : ¬ pk = k := by
        intro hh
        exact (List.nodup_cons.mp hnd').1 (hh ▸ hk)
      rw [if_neg hne]
      exact ih (List.nodup_cons.mp hnd').2 hm'

theorem runVotes_from_nil_counts (rows : List FpRow) (steps : List (Int × ℚ))
    {k : Int × Int} {n : Nat} (hm : (k, n) ∈ runVotes rows steps []) :
    hitCount rows steps k = n := by
  have h1 : countKey (runVotes rows steps []) k =
      countKey [] k + hitCount rows steps k :=
    countKey_runVotes rows steps [] k
  have h2 : countKey (runVotes rows steps []) k = n :=
    countKey_of_mem (nodup_voteKeys_runVotes rows steps [] List.nodup_nil) hm
  have h3 : countKey ([] : List ((Int × Int) × Nat)) k = 0 := rfl
  omega

theorem voteKeys_map_scale (u : List ((Int × Int) × Nat))
    (f : ((Int × Int) × Nat) → ((Int × Int) × Nat))
    (hf : ∀ p, (f p).1 = p.1) :
    voteKeys (u.map f) = voteKeys u := by
  show (u.map f).map Prod.fst = u.map Prod.fst
  rw [List.map_map]
  exact List.map_congr_left (fun p _ => hf p)

theorem runVotes_counts (rows : List FpRow) (steps : List (Int × ℚ)) :
    ∀ (u : List ((Int × Int) × Nat)), (voteKeys u).Nodup →
      (∀ k ∈ steps.filterMap (stepKey rows), k ∈ voteKeys u) →
      runVotes rows steps u =
        u.map (fun p => (p.1, p.2 + hitCount rows steps p.1)) := by
  induction steps with
  | nil =>
    intro u _ _
    show u = u.map (fun p => (p.1, p.2 + hitCount rows [] p.1))
    have hpt : ∀ p : (Int × Int) × Nat,
        (fun a : (Int × Int) × Nat => a) p =
          (fun p : (Int × Int) × Nat => (p.1, p.2 + hitCount rows [] p.1)) p := by
      intro p
      show p = (p.1, p.2 + 0)
      rfl
    rw [← List.map_congr_left (fun a _ => hpt a)]
    exact (List.map_id u).symm
  | cons st rest ih =>
    intro u hnd hsub
    obtain ⟨f, q⟩ := st
    cases hdl : dictLookup rows f with
    | none =>
      have hsk : stepKey rows (f, q) = none := by simp [stepKey, hdl]
      simp only [runVotes, hdl]
      rw [ih u hnd (fun k hk => hsub k (by rw [List.filterMap_cons_none hsk]; exact hk))]
      apply List.map_congr_left
      intro p _
      have hhit : hitCount rows ((f, q) :: rest) p.1 = hitCount rows rest p.1 := by
        unfold hitCount
        rw [List.filterMap_cons_none hsk]
      rw [hhit]
    | some r =>
      have hsk : stepKey rows (f, q) =
          some (r.video_id, pythonRound (r.timestamp_seconds - q)) := by
        simp [stepKey, hdl]
      have hmem : (r.video_id, pythonRound (r.timestamp_seconds - q)) ∈ voteKeys u :=
        hsub _ (by rw [List.filterMap_cons_some hsk]; exact List.mem_cons_self _ _)
      simp only [runVotes, hdl]
      rw [bump_eq_map _ u hnd hmem]
      have hkeq : voteKeys (u.map (fun p =>
          (p.1, p.2 + if p.1 = (r.video_id, pythonRound (r.timestamp_seconds - q))
            then 1 else 0))) = voteKeys u :=
        voteKeys_map_scale u _ (fun p => rfl)
      rw [ih _ (by rw [hkeq]; exact hnd)
        (fun k hk => by
          rw [hkeq]
          exact hsub k (by
            rw [List.filterMap_cons_some hsk]
            exact List.mem_cons_of_mem _ hk))]
      rw [List.map_map]
      apply List.map_congr_left
      intro p _
      have hhit : hitCount rows ((f, q) :: rest) p.1 =
          hitCount rows rest p.1 +
            if p.1 = (r.video_id, pythonRound (r.timestamp_seconds - q))
              then 1 else 0 := by
        unfold hitCount
        rw [List.filterMap_cons_some hsk, List.count_cons]
        by_cases hk : p.1 = (r.video_id, pythonRound (r.timestamp_seconds - q))
        · simp [hk]
        · simp [hk, Ne.symm hk]
      show (p.1, (p.2 + if p.1 = (r.video_id, pythonRound (r.timestamp_seconds - q))
          then 1 else 0) + hitCount rows rest p.1) =
        (p.1, p.2 + hitCount rows ((f, q) :: rest) p.1)
      rw [hhit]
      have harith : (p.2 + (if p.1 = (r.video_id,
            pythonRound (r.timestamp_seconds - q)) then 1 else 0)) +
          hitCount rows rest p.1 =
        p.2 + (hitCount rows rest p.1 +
          if p.1 = (r.video_id, pythonRound (r.timestamp_seconds - q))
            then 1 else 0) := by
        omega
      rw [harith]

theorem map_scale_one (v : List ((Int × Int) × Nat)) :
    v.map (fun p => (p.1, 1 * p.2)) = v := by
  induction v with
  | nil => rfl
  | cons p rest ih =>
    rw [List.map_cons, ih, Nat.one_mul]

theorem runVotes_repList (rows : List FpRow) (steps : List (Int × ℚ)) (n : Nat) :
    runVotes rows (repList (n + 1) steps) [] =
      (runVotes rows steps []).map (fun p => (p.1, (n + 1) * p.2)) := by
  induction n with
  | zero =>
    show runVotes rows (steps ++ []) [] = _
    rw [List.append_nil, map_scale_one]
  | succ m ih =>
    rw [repList_succ_r, runVotes_append, ih]
    have hkeq : voteKeys ((runVotes rows steps []).map
        (fun p => (p.1, (m + 1) * p.2))) = voteKeys (runVotes rows steps []) :=
      voteKeys_map_scale _ _ (fun p => rfl)
    rw [runVotes_counts rows steps _
      (by rw [hkeq]; exact nodup_voteKeys_runVotes rows steps [] List.nodup_nil)
      (fun k hk => by rw [hkeq]; exact stepKeys_mem_runVotes rows steps [] k hk)]
    rw [List.map_map]
    apply List.map_congr_left
    intro p hp
    have hhit : hitCount rows steps p.1 = p.2 := by
      apply runVotes_from_nil_counts rows steps
      show (p.1, p.2) ∈ runVotes rows steps []
      have hpe : ((p.1, p.2) : (Int × Int) × Nat) = p := rfl
      rw [hpe]
      exact hp
    show (p.1, (m + 1) * p.2 + hitCount rows steps p.1) = (p.1, (m + 1 + 1) * p.2)
    rw [hhit]
    have harith : (m + 1) * p.2 + p.2 = (m + 1 + 1) * p.2 := by ring
    rw [harith]

theorem foldl_best_scale (c : Nat) (hc : 0 < c) :
    ∀ (rest : List ((Int × Int) × Nat)) (a : (Int × Int) × Nat),
      (rest.map (fun p => (p.1, c * p.2))).foldl
          (fun best y => if y.2 > best.2 then y else best) (a.1, c * a.2) =
        ((rest.foldl (fun best y => if y.2 > best.2 then y else best) a).1,
         c * (rest.foldl (fun best y => if y.2 > best.2 then y else best) a).2) := by
  intro rest
  induction rest with
  | nil => intro a; rfl
  | cons y t ih =>
    intro a
    simp only [List.map_cons, List.foldl_cons]
    by_cases hgt : y.2 > a.2
    · rw [if_pos (show c * y.2 > c * a.2 from (Nat.mul_lt_mul_left hc).mpr hgt),
        if_pos hgt]
      exact ih y
    · rw [if_neg (show ¬ c * y.2 > c * a.2 from
        fun hlt => hgt ((Nat.mul_lt_mul_left hc).mp hlt)), if_neg hgt]
      exact ih a

theorem mostCommon1_scale (c : Nat) (hc : 0 < c) (v : List ((Int × Int) × Nat))
    (k : Int × Int) (n : Nat) (h : mostCommon1 v = some (k, n)) :
    mostCommon1 (v.map (fun p => (p.1, c * p.2))) = some (k, c * n) := by
  cases v with
  | nil => cases h
  | cons a rest =>
    simp only [mostCommon1, List.map_cons, Option.some.injEq] at h ⊢
    rw [foldl_best_scale c hc rest a, h]

theorem align_eval {cfg : AlignmentConfig} {table : List FpRow}
    {ns : List (List Int)} {qs : List ℚ} {k : Int × Int} {v : Nat}
    (hns : npSize2 ns ≠ 0) (hq : qs.length ≠ 0) (hlen : ns.length = qs.length)
    (hmc : mostCommon1 (alignVotes table ns qs) = some (k, v)) :
    align cfg table ns qs =
      (if (v : Int) < cfg.min_vote_count then
        { found := false, reason := some (countMsg v cfg.min_vote_count) }
      else if (v : ℚ) / (qs.length : ℚ) < cfg.min_vote_ratio then
        { found := false,
          reason := some (ratioMsg ((v : ℚ) / (qs.length : ℚ)) cfg.min_vote_ratio) }
      else
        { found := true, video_id := some k.1, timestamp_seconds := some k.2,
          score := some ((v : ℚ) / (qs.length : ℚ)),
          reason := some (acceptMsg v ((v : ℚ) / (qs.length : ℚ))) }) := by
  have hlen' : ¬ ns.length ≠ qs.length := not_not_intro hlen
  rw [alignVotes] at hmc
  have hrows : ¬ get_fingerprint_rows table ns.flatten = [] := by
    intro hr
    rw [hr, runVotes_nil_rows] at hmc
    cases hmc
  simp only [align, if_neg hns, if_neg hq, if_neg hlen', if_neg hrows, hmc]

theorem align_found_inv {cfg : AlignmentConfig} {table : List FpRow}
    {ns : List (List Int)} {qs : List ℚ}
    (h : (align cfg table ns qs).found = true) :
    npSize2 ns ≠ 0 ∧ qs.length ≠ 0 ∧ ns.length = qs.length ∧
      ∃ k v, mostCommon1 (alignVotes table ns qs) = some (k, v) ∧
        ¬ (v : Int) < cfg.min_vote_count ∧
        ¬ (v : ℚ) / (qs.length : ℚ) < cfg.min_vote_ratio := by
  by_cases hns : npSize2 ns = 0
  · unfold align at h
    rw [if_pos hns] at h
    simp at h
  by_cases hq : qs.length = 0
  · unfold align at h
    rw [if_neg hns, if_pos hq] at h
    simp at h
  by_cases hlen : ns.length ≠ qs.length
  · unfold align at h
    rw [if_neg hns, if_neg hq, if_pos hlen] at h
    simp at h
  refine ⟨hns, hq, not_not.mp hlen, ?_⟩
  unfold align at h
  rw [if_neg hns, if_neg hq, if_neg hlen] at h
  by_cases hrows : get_fingerprint_rows table ns.flatten = []
  · rw [if_pos hrows] at h
    simp at h
  rw [if_neg hrows] at h
  simp only [] at h
  cases hmc : mostCommon1 (runVotes (get_fingerprint_rows table ns.flatten)
      (voteSteps ns qs) []) with
  | none =>
    rw [hmc] at h
    simp at h
  | some best =>
    rw [hmc] at h
    obtain ⟨k, v⟩ := best
    simp only [] at h
    by_cases hcnt : (v : Int) < cfg.min_vote_count
    · rw [if_pos hcnt] at h
      simp at h
    rw [if_neg hcnt] at h
    by_cases hr : (v : ℚ) / (qs.length : ℚ) < cfg.min_vote_ratio
    · rw [if_pos hr] at h
      simp at h
    exact ⟨k, v, hmc, hcnt, hr⟩

/-- C9: alignment is scale-invariant in the number of query seconds.
Replicating the neighbor rows and the query timestamps `c ≥ 1` times
(1) multiplies every vote bucket's count by `c` (the vote table is the
pointwise `c`-scaling of the original), (2) scales the best bucket's count by
`c` while leaving its vote ratio `v/Q` unchanged, and (3) preserves the
accept decision and the reported score: if the original input is accepted,
the replicated input is accepted with the same score. -/
theorem claim_C9 (cfg : AlignmentConfig) (table : List FpRow)
    (ns : List (List Int)) (qs : List ℚ) (c : Nat)
    (hc : 1 ≤ c) (hlen : ns.length = qs.length) :
    alignVotes table (repList c ns) (repList c qs) =
      (alignVotes table ns qs).map (fun p => (p.1, c * p.2)) ∧
    (∀ (k : Int × Int) (v : Nat),
      mostCommon1 (alignVotes table ns qs) = some (k, v) →
      mostCommon1 (alignVotes table (repList c ns) (repList c qs)) =
        some (k, c * v) ∧
      ((c * v : Nat) : ℚ) / (((repList c qs).length : Nat) : ℚ) =
        (v : ℚ) / (qs.length : ℚ)) ∧
    ((align cfg table ns qs).found = true →
      (align cfg table (repList c ns) (repList c qs)).found = true ∧
      (align cfg table (repList c ns) (repList c qs)).score =
        (align cfg table ns qs).score) := by
  obtain ⟨n, rfl⟩ : ∃ n, c = n + 1 := ⟨c - 1, by omega⟩
  have hvotes : alignVotes table (repList (n + 1) ns) (repList (n + 1) qs) =
      (alignVotes table ns qs).map (fun p => (p.1, (n + 1) * p.2)) := by
    unfold alignVotes
    rw [rows_repList, voteSteps_repList _ _ _ hlen, runVotes_repList]
  have hratio : ∀ v : Nat,
      (((n + 1) * v : Nat) : ℚ) / (((repList (n + 1) qs).length : Nat) : ℚ) =
        (v : ℚ) / (qs.length : ℚ) := by
    intro v
    rw [length_repList]
    push_cast
    rw [mul_div_mul_left _ _ (by positivity : ((n : ℚ) + 1) ≠ 0)]
  have hmost : ∀ (k : Int × Int) (v : Nat),
      mostCommon1 (alignVotes table ns qs) = some (k, v) →
      mostCommon1 (alignVotes table (repList (n + 1) ns) (repList (n + 1) qs)) =
        some (k, (n + 1) * v) := by
    intro k v hmc
    rw [hvotes]
    exact mostCommon1_scale (n + 1) (by omega) _ k v hmc
  refine ⟨hvotes, fun k v hmc => ⟨hmost k v hmc, hratio v⟩, ?_⟩
  intro hfound
  obtain ⟨hns, hq, _hlen2, k, v, hmc, hcnt, hr⟩ := align_found_inv hfound
  have horig : align cfg table ns qs =
      { found := true, video_id := some k.1, timestamp_seconds := some k.2,
        score := some ((v : ℚ) / (qs.length : ℚ)),
        reason := some (acceptMsg v ((v : ℚ) / (qs.length : ℚ))) } := by
    rw [align_eval hns hq hlen hmc, if_neg hcnt, if_neg hr]
  have hns2 : npSize2 (repList (n + 1) ns) ≠ 0 := by
    rw [npSize2_repList]
    intro h0
    rcases Nat.mul_eq_zero.mp h0 with h1 | h1
    · omega
    · exact hns h1
  have hq2 : (repList (n + 1) qs).length ≠ 0 := by
    rw [length_repList]
    intro h0
    rcases Nat.mul_eq_zero.mp h0 with h1 | h1
    · omega
    · exact hq h1
  have hlen3 : (repList (n + 1) ns).length = (repList (n + 1) qs).length := by
    rw [length_repList, length_repList, hlen]
  have hcnt2 : ¬ (((n + 1) * v : Nat) : Int) < cfg.min_vote_count := by
    intro hlt
    apply hcnt
    have hvle : v ≤ (n + 1) * v := Nat.le_mul_of_pos_left v (by omega)
    have hvle2 : (v : Int) ≤ (((n + 1) * v : Nat) : Int) := by exact_mod_cast hvle
    omega
  have hr2 : ¬ (((n + 1) * v : Nat) : ℚ) /
      (((repList (n + 1) qs).length : Nat) : ℚ) < cfg.min_vote_ratio := by
    rw [hratio v]
    exact hr
  have hscaled : align cfg table (repList (n + 1) ns) (repList (n + 1) qs) =
      { found := true, video_id := some k.1, timestamp_seconds := some k.2,
        score := some ((((n + 1) * v : Nat) : ℚ) /
          (((repList (n + 1) qs).length : Nat) : ℚ)),
        reason := some (acceptMsg ((n + 1) * v) ((((n + 1) * v : Nat) : ℚ) /
          (((repList (n + 1) qs).length : Nat) : ℚ))) } := by
    rw [align_eval hns2 hq2 hlen3 (hmost k v hmc), if_neg hcnt2, if_neg hr2]
  rw [hscaled, horig]
  constructor
  · rfl
  · show some ((((n + 1) * v : Nat) : ℚ) /
        (((repList (n + 1) qs).length : Nat) : ℚ)) =
      some ((v : ℚ) / (qs.length : ℚ))
    rw [hratio v]

/-- Evaluation of the scenario-S3 vote table's best bucket: `(100, 10)` wins
with three votes. -/
theorem mostCommonS3_eval :
    mostCommon1 (alignVotes tableS3 [[1, 3], [2, 3], [2, 1]] [0, 1, 1]) =
      some ((100, 10), 3) := by
  norm_num +decide [alignVotes, voteSteps, get_fingerprint_rows, runVotes,
    dictLookup, bumpVote, pythonRound, mostCommon1, tableS3]

/-- Scenario S3 is accepted under the thresholds `(count ≥ 2, ratio ≥ 0.5)`. -/
theorem alignS3_found :
    (align { min_vote_count := 2, min_vote_ratio := 1 / 2 } tableS3
        [[1, 3], [2, 3], [2, 1]] [0, 1, 1]).found = true := by
  norm_num +decide [align, voteSteps, get_fingerprint_rows, runVotes,
    dictLookup, bumpVote, pythonRound, npSize2, tableS3, mostCommon1, fmt3,
    countMsg, ratioMsg, acceptMsg]

/-- C9 witness: scenario S3 replicated twice — the vote table doubles
pointwise, the best bucket `(100, 10)` gets `2 · 3` votes, and the doubled
input is still accepted with the same score. -/
theorem claim_C9_witness :
    alignVotes tableS3 (repList 2 [[1, 3], [2, 3], [2, 1]]) (repList 2 [0, 1, 1]) =
      (alignVotes tableS3 [[1, 3], [2, 3], [2, 1]] [0, 1, 1]).map
        (fun p => (p.1, 2 * p.2)) ∧
    mostCommon1 (alignVotes tableS3 (repList 2 [[1, 3], [2, 3], [2, 1]])
        (repList 2 [0, 1, 1])) = some ((100, 10), 2 * 3) ∧
    (align { min_vote_count := 2, min_vote_ratio := 1 / 2 } tableS3
        (repList 2 [[1, 3], [2, 3], [2, 1]]) (repList 2 [0, 1, 1])).found = true ∧
    (align { min_vote_count := 2, min_vote_ratio := 1 / 2 } tableS3
        (repList 2 [[1, 3], [2, 3], [2, 1]]) (repList 2 [0, 1, 1])).score =
      (align { min_vote_count := 2, min_vote_ratio := 1 / 2 } tableS3
        [[1, 3], [2, 3], [2, 1]] [0, 1, 1]).score := by
  have h := claim_C9 { min_vote_count := 2, min_vote_ratio := 1 / 2 } tableS3
    [[1, 3], [2, 3], [2, 1]] [0, 1, 1] 2 (by decide) (by decide)
  exact ⟨h.1, (h.2.1 (100, 10) 3 mostCommonS3_eval).1,
    (h.2.2 alignS3_found).1, (h.2.2 alignS3_found).2⟩

end VodHunter
